import Mathlib

/-!
Verification of the Document Structuring Engine of the
DE-Automation-Using-AWS-Services repository.

The Python sources `Extract_Text_Lambda.py` and `SOP_Structure_Formation.py`
are shallowly embedded below; machine strings are `String` / `List Char`,
Python dicts keyed by strings or ints are association lists with
last-write-wins update, and Textract blocks are a structure with `Option`
fields for keys accessed through `.get`.
-/

/-! ## Basic character helpers (Python `\s`, `\d`, `\w` on ASCII text) -/

/-- Python whitespace for `str.strip` and the regex class `\s`
(ASCII fragment): space, tab, newline, carriage return, vertical tab,
form feed. -/
def pyIsSpace (c : Char) : Bool :=
  c = ' ' || c = '\t' || c = '\n' || c = '\r' || c = Char.ofNat 11 || c = Char.ofNat 12

/-- Regex class `\d` (ASCII fragment). -/
def pyIsDigit (c : Char) : Bool := '0' ≤ c && c ≤ '9'

/-- ASCII letter test, used for `[A-Z]` under `re.IGNORECASE`. -/
def pyIsAlpha (c : Char) : Bool :=
  ('a' ≤ c && c ≤ 'z') || ('A' ≤ c && c ≤ 'Z')

/-- Regex class `\w` (ASCII fragment): letters, digits, underscore. -/
def pyIsWord (c : Char) : Bool := pyIsAlpha c || pyIsDigit c || c = '_'

/-- Case-insensitive character comparison (`re.IGNORECASE`, ASCII). -/
def ciEqChar (a b : Char) : Bool := a.toLower = b.toLower

/-- Python `str.strip()` on a character list: drop leading and trailing
whitespace. -/
def pyStrip (l : List Char) : List Char :=
  ((l.dropWhile pyIsSpace).reverse.dropWhile pyIsSpace).reverse

/-- Python `str.strip()` on a `String`. -/
def pyStripS (s : String) : String := String.mk (pyStrip s.toList)

/-! ## Association lists with Python-dict update semantics -/

/-- `d[k] = v` on a Python dict: replace the value in place if the key is
present, else append the new binding. -/
def assocSet {K V : Type} [DecidableEq K] :
    List (K × V) → K → V → List (K × V)
  | [], k, v => [(k, v)]
  | (k', v') :: rest, k, v =>
    if k' = k then (k', v) :: rest else (k', v') :: assocSet rest k v

/-- `d.get(k)` on a Python dict. -/
def assocGet {K V : Type} [DecidableEq K] :
    List (K × V) → K → Option V
  | [], _ => none
  | (k', v') :: rest, k => if k' = k then some v' else assocGet rest k

/-! ## `SOP_Structure_Formation.py`: the table classifier -/

/-- A table dict as produced by the extractor and consumed by
`_categorize_tables` / `SOP_Structure_Formation`; every key is read with
`.get`, so all fields are optional. -/
structure PyTable where
  page : Option Nat
  source : Option String
  rows : Option (List (List String))
deriving DecidableEq

/-- `METADATA_KEYWORDS` from `SOP_Structure_Formation.py`. -/
def METADATA_KEYWORDS : List String :=
  ["Responsible", "Accountable", "Consulted", "Informed"]

/-- `REVISION_HEADERS` from `SOP_Structure_Formation.py`. -/
def REVISION_HEADERS : List String :=
  ["Version", "Date", "Description", "Contributor"]

/-- Python `needle in hay` for strings: contiguous-substring test. -/
def infixB (needle : List Char) : List Char → Bool
  | [] => needle.isEmpty
  | c :: rest => needle.isPrefixOf (c :: rest) || infixB needle rest

/-- `any(kw in str(rows) for kw in METADATA_KEYWORDS)`.  Since every
keyword is purely alphabetic and `repr` of a list of strings only inserts
non-alphabetic separator characters and never escapes a letter, a keyword
occurs in `str(rows)` exactly when it occurs inside a single cell. -/
def containsKW (rows : List (List String)) : Bool :=
  METADATA_KEYWORDS.any (fun kw =>
    rows.any (fun row => row.any (fun cell => infixB kw.toList cell.toList)))

/-- `set(header) == set(REVISION_HEADERS)`: equality of the underlying
sets, ignoring order and multiplicity. -/
def setEqRevision (header : List String) : Bool :=
  header.all (fun x => REVISION_HEADERS.contains x) &&
    REVISION_HEADERS.all (fun x => header.contains x)

/-- Loop state of `_categorize_tables`. -/
structure CatState where
  metadata : Option PyTable
  revRows : List (List String)
  body : List PyTable
  isRev : Bool
deriving DecidableEq

/-- Initial state of the `_categorize_tables` loop. -/
def catInit : CatState := ⟨none, [], [], false⟩

/-- One iteration of the `_categorize_tables` loop
(`SOP_Structure_Formation.py` lines 59-77). -/
def catStep (s : CatState) (t : PyTable) : CatState :=
  let rows := t.rows.getD []
  if rows.isEmpty then s
  else
    let header := rows.headI
    if s.metadata.isNone && containsKW rows then
      { s with metadata := some t }
    else if setEqRevision header then
      { s with isRev := true, revRows := s.revRows ++ rows.tail }
    else if s.isRev && header.length = REVISION_HEADERS.length then
      { s with revRows := s.revRows ++ rows }
    else
      { s with isRev := false, body := s.body ++ [t] }

/-- `_categorize_tables`: returns
`(metadata_table, revision_rows, body_tables)`. -/
def categorize_tables (ts : List PyTable) :
    Option PyTable × List (List String) × List PyTable :=
  let s := ts.foldl catStep catInit
  (s.metadata, s.revRows, s.body)

/-- State of the classifier just before the `i`-th table is processed. -/
def catStateAt (ts : List PyTable) (i : Nat) : CatState :=
  (ts.take i).foldl catStep catInit

/-! ## Claim C10: tables with empty or absent `rows` are skipped -/

lemma catStateAt_succ (ts : List PyTable) (i : Nat) (hi : i < ts.length) :
    catStateAt ts (i + 1) = catStep (catStateAt ts i) ts[i] := by
  unfold catStateAt
  rw [List.take_succ, List.getElem?_eq_getElem hi, List.foldl_append]
  rfl

lemma catStep_not_meta_rev (s : CatState) (t : PyTable) (rows : List (List String))
    (h : t.rows.getD [] = rows) (hne : rows ≠ [])
    (hm : ¬(s.metadata = none ∧ containsKW rows = true))
    (hr : setEqRevision rows.headI = true) :
    catStep s t = { s with isRev := true, revRows := s.revRows ++ rows.tail } := by
  unfold catStep
  simp only [h, hr, List.isEmpty_iff, Bool.and_eq_true, Option.isNone_iff_eq_none,
    if_neg hne, if_neg hm, if_pos rfl, if_true]

lemma catStep_not_meta_cont (s : CatState) (t : PyTable) (rows : List (List String))
    (h : t.rows.getD [] = rows) (hne : rows ≠ [])
    (hm : ¬(s.metadata = none ∧ containsKW rows = true))
    (hr : setEqRevision rows.headI = false)
    (hf : s.isRev = true ∧ rows.headI.length = REVISION_HEADERS.length) :
    catStep s t = { s with revRows := s.revRows ++ rows } := by
  unfold catStep
  simp only [h, hr, List.isEmpty_iff, Bool.and_eq_true, Option.isNone_iff_eq_none,
    decide_eq_true_eq, if_neg hne, if_neg hm, Bool.false_eq_true, if_false, if_pos hf]

lemma catStep_not_meta_body (s : CatState) (t : PyTable) (rows : List (List String))
    (h : t.rows.getD [] = rows) (hne : rows ≠ [])
    (hm : ¬(s.metadata = none ∧ containsKW rows = true))
    (hr : setEqRevision rows.headI = false)
    (hf : ¬(s.isRev = true ∧ rows.headI.length = REVISION_HEADERS.length)) :
    catStep s t = { s with isRev := false, body := s.body ++ [t] } := by
  unfold catStep
  simp only [h, hr, List.isEmpty_iff, Bool.and_eq_true, Option.isNone_iff_eq_none,
    decide_eq_true_eq, if_neg hne, if_neg hm, Bool.false_eq_true, if_false, if_neg hf]

lemma catStep_empty_rows (t : PyTable) (h : t.rows.getD [] = []) (s : CatState) :
    catStep s t = s := by
  unfold catStep
  simp [h]

/-- Claim C10: a table whose `rows` value is an empty list (or absent) is
skipped entirely by the classifier: it changes nothing in the loop state
(in particular not the revision-mode flag), and inserting such a table
anywhere in the input leaves all three classifier outputs unchanged. -/
theorem c10_empty_rows_skipped (t : PyTable) (h : t.rows.getD [] = []) :
    (∀ s, catStep s t = s) ∧
    (∀ ts1 ts2, categorize_tables (ts1 ++ t :: ts2) = categorize_tables (ts1 ++ ts2)) := by
  refine ⟨catStep_empty_rows t h, fun ts1 ts2 => ?_⟩
  unfold categorize_tables
  rw [List.foldl_append, List.foldl_append, List.foldl_cons, catStep_empty_rows t h]

/-- Witness for C10 at a concrete input: a table with `rows = []` placed
between two nonempty tables does not disturb classification. -/
theorem c10_empty_rows_skipped_witness :
    (PyTable.mk none none (some []) |>.rows.getD []) = [] ∧
    categorize_tables
        [⟨none, none, some [["a"]]⟩, ⟨none, none, some []⟩, ⟨none, none, some [["b"]]⟩] =
      categorize_tables [⟨none, none, some [["a"]]⟩, ⟨none, none, some [["b"]]⟩] := by
  refine ⟨rfl, ?_⟩
  exact (c10_empty_rows_skipped ⟨none, none, some []⟩ rfl).2
    [⟨none, none, some [["a"]]⟩] [⟨none, none, some [["b"]]⟩]

/-! ## Claim C3: the revision-history pass -/

/-- Claim C3 exactly as stated: for every ordered list of tables, a table
whose first row set-equals `{Version, Date, Description, Contributor}`
enters revision mode and contributes its remaining rows; while in revision
mode a width-4 table is appended in full; any other table exits revision
mode and is appended to the body tables. (No exception is made for the
metadata rule.) -/
def C3Stated : Prop :=
  ∀ (ts : List PyTable) (i : Nat) (hi : i < ts.length) (rows : List (List String)),
    ts[i].rows.getD [] = rows → rows ≠ [] →
    ((setEqRevision rows.headI = true →
        (catStateAt ts (i + 1)).revRows = (catStateAt ts i).revRows ++ rows.tail ∧
        (catStateAt ts (i + 1)).isRev = true) ∧
     (setEqRevision rows.headI = false →
        (catStateAt ts i).isRev = true → rows.headI.length = 4 →
        (catStateAt ts (i + 1)).revRows = (catStateAt ts i).revRows ++ rows ∧
        (catStateAt ts (i + 1)).isRev = true) ∧
     (setEqRevision rows.headI = false →
        ¬((catStateAt ts i).isRev = true ∧ rows.headI.length = 4) →
        (catStateAt ts (i + 1)).body = (catStateAt ts i).body ++ [ts[i]] ∧
        (catStateAt ts (i + 1)).isRev = false))

/-- A revision-shaped table whose body mentions the keyword `Informed`:
the metadata rule captures it before the revision rule can see it. -/
def c3ctrTables : List PyTable :=
  [⟨none, none, some [["Version", "Date", "Description", "Contributor"],
                      ["1.0", "2020", "Informed the team", "B"]]⟩]

/-- Counterexample to claim C3 as stated: in `c3ctrTables` the single
table's first row set-equals the revision headers, yet its remaining rows
are NOT appended to the revision accumulator, because the
metadata-keyword rule (`Informed` occurs in a cell) captures the table
first. -/
theorem c3_counterexample : ¬ C3Stated := by
  intro h
  have h1 := (h c3ctrTables 0 (by decide)
      [["Version", "Date", "Description", "Contributor"],
       ["1.0", "2020", "Informed the team", "B"]] rfl (by decide)).1 (by decide)
  exact absurd h1.1 (by decide)

/-- Claim C3 amended: the revision-pass description holds for every table
that is not captured by the metadata rule (the first table whose cells
contain one of the RACI keywords, while no metadata table has been found
yet, becomes the metadata table instead and leaves the revision state
untouched). -/
theorem c3_revision_pass (ts : List PyTable) (i : Nat) (hi : i < ts.length)
    (rows : List (List String))
    (hrows : ts[i].rows.getD [] = rows) (hne : rows ≠ [])
    (hmeta : ¬((catStateAt ts i).metadata = none ∧ containsKW rows = true)) :
    ((setEqRevision rows.headI = true →
        (catStateAt ts (i + 1)).revRows = (catStateAt ts i).revRows ++ rows.tail ∧
        (catStateAt ts (i + 1)).isRev = true) ∧
     (setEqRevision rows.headI = false →
        (catStateAt ts i).isRev = true → rows.headI.length = 4 →
        (catStateAt ts (i + 1)).revRows = (catStateAt ts i).revRows ++ rows ∧
        (catStateAt ts (i + 1)).isRev = true) ∧
     (setEqRevision rows.headI = false →
        ¬((catStateAt ts i).isRev = true ∧ rows.headI.length = 4) →
        (catStateAt ts (i + 1)).body = (catStateAt ts i).body ++ [ts[i]] ∧
        (catStateAt ts (i + 1)).isRev = false)) := by
  rw [catStateAt_succ ts i hi]
  have h4 : REVISION_HEADERS.length = 4 := rfl
  refine ⟨fun hrev => ?_, fun hnrev hflag hlen => ?_, fun hnrev hnflag => ?_⟩
  · rw [catStep_not_meta_rev (catStateAt ts i) ts[i] rows hrows hne hmeta hrev]
    exact ⟨rfl, rfl⟩
  · rw [catStep_not_meta_cont (catStateAt ts i) ts[i] rows hrows hne hmeta hnrev
      ⟨hflag, by rw [h4, hlen]⟩]
    exact ⟨rfl, hflag⟩
  · rw [catStep_not_meta_body (catStateAt ts i) ts[i] rows hrows hne hmeta hnrev
      (by rw [h4]; exact hnflag)]
    exact ⟨rfl, rfl⟩

/-- A genuine revision table (no RACI keywords) followed by a width-4
continuation table. -/
def c3exTables : List PyTable :=
  [⟨some 1, some "TEXTRACT_TABLE",
      some [["Version", "Date", "Description", "Contributor"],
            ["1.0", "2020-01-01", "Initial", "A. Smith"]]⟩,
   ⟨some 2, some "TEXTRACT_TABLE", some [["1.1", "2021-01-01", "Update", "B. Jones"]]⟩]

/-- Witness for the amended claim C3 at a concrete input: the header table
enters revision mode and contributes its remaining rows, and the width-4
continuation table is appended in full. -/
theorem c3_revision_pass_witness :
    ((catStateAt c3exTables 1).revRows =
        (catStateAt c3exTables 0).revRows ++ [["1.0", "2020-01-01", "Initial", "A. Smith"]] ∧
      (catStateAt c3exTables 1).isRev = true) ∧
    ((catStateAt c3exTables 2).revRows =
        (catStateAt c3exTables 1).revRows ++ [["1.1", "2021-01-01", "Update", "B. Jones"]] ∧
      (catStateAt c3exTables 2).isRev = true) := by
  constructor
  · exact (c3_revision_pass c3exTables 0 (by decide)
      [["Version", "Date", "Description", "Contributor"],
       ["1.0", "2020-01-01", "Initial", "A. Smith"]] rfl (by decide) (by decide)).1 (by decide)
  · exact (c3_revision_pass c3exTables 1 (by decide)
      [["1.1", "2021-01-01", "Update", "B. Jones"]] rfl (by decide) (by decide)).2.1
      (by decide) (by decide) (by decide)

/-! ## Claim C4: classifier exclusivity -/

/-- The branch of the `_categorize_tables` loop a table falls into. -/
inductive CatKind where
  | metaK
  | revHeadK
  | revContK
  | bodyK
  | skipK
deriving DecidableEq

/-- Which branch of the loop body handles table `t` in state `s`;
the conditions are those of `catStep`, in the same order. -/
def catClass (s : CatState) (t : PyTable) : CatKind :=
  let rows := t.rows.getD []
  if rows.isEmpty then .skipK
  else if s.metadata.isNone && containsKW rows then .metaK
  else if setEqRevision rows.headI then .revHeadK
  else if s.isRev && rows.headI.length = REVISION_HEADERS.length then .revContK
  else .bodyK

/-- The classification of every table of the list, threading the loop
state. -/
def classTrace (s : CatState) : List PyTable → List CatKind
  | [] => []
  | t :: ts => catClass s t :: classTrace (catStep s t) ts

/-- Rows a table contributes to the revision accumulator, according to its
classification. -/
def contribK (p : PyTable × CatKind) : List (List String) :=
  match p.2 with
  | .revHeadK => (p.1.rows.getD []).tail
  | .revContK => p.1.rows.getD []
  | _ => []

lemma catStep_meta (s : CatState) (t : PyTable) (rows : List (List String))
    (h : t.rows.getD [] = rows) (hne : rows ≠ [])
    (hm : s.metadata = none ∧ containsKW rows = true) :
    catStep s t = { s with metadata := some t } := by
  unfold catStep
  simp only [h, List.isEmpty_iff, Bool.and_eq_true, Option.isNone_iff_eq_none,
    if_neg hne, if_pos hm]

lemma catClass_skip (s : CatState) (t : PyTable) (h : t.rows.getD [] = []) :
    catClass s t = .skipK := by
  unfold catClass
  simp [h]

lemma catClass_meta (s : CatState) (t : PyTable) (rows : List (List String))
    (h : t.rows.getD [] = rows) (hne : rows ≠ [])
    (hm : s.metadata = none ∧ containsKW rows = true) :
    catClass s t = .metaK := by
  unfold catClass
  simp only [h, List.isEmpty_iff, Bool.and_eq_true, Option.isNone_iff_eq_none,
    if_neg hne, if_pos hm]

lemma catClass_revHead (s : CatState) (t : PyTable) (rows : List (List String))
    (h : t.rows.getD [] = rows) (hne : rows ≠ [])
    (hm : ¬(s.metadata = none ∧ containsKW rows = true))
    (hr : setEqRevision rows.headI = true) :
    catClass s t = .revHeadK := by
  unfold catClass
  simp only [h, hr, List.isEmpty_iff, Bool.and_eq_true, Option.isNone_iff_eq_none,
    if_neg hne, if_neg hm, if_pos rfl, if_true]

lemma catClass_revCont (s : CatState) (t : PyTable) (rows : List (List String))
    (h : t.rows.getD [] = rows) (hne : rows ≠ [])
    (hm : ¬(s.metadata = none ∧ containsKW rows = true))
    (hr : setEqRevision rows.headI = false)
    (hf : s.isRev = true ∧ rows.headI.length = REVISION_HEADERS.length) :
    catClass s t = .revContK := by
  unfold catClass
  simp only [h, hr, List.isEmpty_iff, Bool.and_eq_true, Option.isNone_iff_eq_none,
    decide_eq_true_eq, if_neg hne, if_neg hm, Bool.false_eq_true, if_false, if_pos hf]

lemma catClass_body (s : CatState) (t : PyTable) (rows : List (List String))
    (h : t.rows.getD [] = rows) (hne : rows ≠ [])
    (hm : ¬(s.metadata = none ∧ containsKW rows = true))
    (hr : setEqRevision rows.headI = false)
    (hf : ¬(s.isRev = true ∧ rows.headI.length = REVISION_HEADERS.length)) :
    catClass s t = .bodyK := by
  unfold catClass
  simp only [h, hr, List.isEmpty_iff, Bool.and_eq_true, Option.isNone_iff_eq_none,
    decide_eq_true_eq, if_neg hne, if_neg hm, Bool.false_eq_true, if_false, if_neg hf]

lemma catStep_eq_class (s : CatState) (t : PyTable) :
    catStep s t =
      (match catClass s t with
       | .skipK => s
       | .metaK => { s with metadata := some t }
       | .revHeadK => { s with isRev := true, revRows := s.revRows ++ (t.rows.getD []).tail }
       | .revContK => { s with revRows := s.revRows ++ t.rows.getD [] }
       | .bodyK => { s with isRev := false, body := s.body ++ [t] }) := by
  unfold catStep catClass
  dsimp only
  split_ifs <;> rfl

lemma catClass_meta_none (s : CatState) (t : PyTable)
    (h : catClass s t = .metaK) : s.metadata = none := by
  unfold catClass at h
  dsimp only at h
  split_ifs at h <;> simp_all

lemma catStep_metadata_of_class_ne (s : CatState) (t : PyTable)
    (h : catClass s t ≠ .metaK) : (catStep s t).metadata = s.metadata := by
  rw [catStep_eq_class]
  rcases hb : catClass s t <;> simp_all

lemma catStep_metadata_of_class_meta (s : CatState) (t : PyTable)
    (h : catClass s t = .metaK) :
    (catStep s t).metadata = some t ∧ s.metadata = none := by
  rw [catStep_eq_class, h]
  exact ⟨rfl, catClass_meta_none s t h⟩

lemma catStep_revRows_class (s : CatState) (t : PyTable) :
    (catStep s t).revRows = s.revRows ++ contribK (t, catClass s t) := by
  rw [catStep_eq_class]
  rcases hb : catClass s t
  all_goals simp [contribK]

lemma catStep_body_class (s : CatState) (t : PyTable) :
    (catStep s t).body = s.body ++ (if catClass s t = .bodyK then [t] else []) := by
  rw [catStep_eq_class]
  rcases hb : catClass s t <;> simp

lemma catClass_ne_meta_of_some (s : CatState) (t : PyTable)
    (h : s.metadata.isSome = true) : catClass s t ≠ .metaK := by
  intro hc
  rw [catClass_meta_none s t hc] at h
  exact absurd h (by simp)

lemma classTrace_no_meta (ts : List PyTable) : ∀ (s : CatState),
    s.metadata.isSome = true → (classTrace s ts).count CatKind.metaK = 0 := by
  induction ts with
  | nil => intro s _; rfl
  | cons t ts ih =>
    intro s hs
    have hne := catClass_ne_meta_of_some s t hs
    have hs' : (catStep s t).metadata.isSome = true := by
      rw [catStep_metadata_of_class_ne s t hne]; exact hs
    simp [classTrace, List.count_cons, ih (catStep s t) hs', hne]

lemma classTrace_length (ts : List PyTable) : ∀ (s : CatState),
    (classTrace s ts).length = ts.length := by
  induction ts with
  | nil => intro s; rfl
  | cons t ts ih => intro s; simp [classTrace, ih]

lemma classTrace_count_le (ts : List PyTable) : ∀ (s : CatState),
    s.metadata = none → (classTrace s ts).count CatKind.metaK ≤ 1 := by
  induction ts with
  | nil => intro s _; simp [classTrace]
  | cons t ts ih =>
    intro s hs
    rcases hcl : catClass s t with _ | _ | _ | _ | _
    · have hs' : (catStep s t).metadata.isSome = true := by
        rw [(catStep_metadata_of_class_meta s t hcl).1]; rfl
      simp [classTrace, List.count_cons, hcl, classTrace_no_meta ts _ hs']
    all_goals
      have hs' : (catStep s t).metadata = none := by
        rw [catStep_metadata_of_class_ne s t (by rw [hcl]; simp)]; exact hs
    all_goals
      simp [classTrace, List.count_cons, hcl, ih (catStep s t) hs']

lemma foldl_metadata_trace (ts : List PyTable) : ∀ (s : CatState),
    (ts.foldl catStep s).metadata =
      (match (ts.zip (classTrace s ts)).find? (fun p => decide (p.2 = CatKind.metaK)) with
       | some p => some p.1
       | none => s.metadata) := by
  induction ts with
  | nil => intro s; rfl
  | cons t ts ih =>
    intro s
    rcases hcl : catClass s t with _ | _ | _ | _ | _
    · obtain ⟨hstep, _⟩ := catStep_metadata_of_class_meta s t hcl
      have hs' : (catStep s t).metadata.isSome = true := by rw [hstep]; rfl
      have hzero := classTrace_no_meta ts (catStep s t) hs'
      have hfind :
          (ts.zip (classTrace (catStep s t) ts)).find? (fun p => decide (p.2 = CatKind.metaK))
            = none := by
        rw [List.find?_eq_none]
        intro p hp
        have hmem : p.2 ∈ classTrace (catStep s t) ts := (List.of_mem_zip hp).2
        have hne : p.2 ≠ CatKind.metaK := by
          intro hcontr
          rw [hcontr] at hmem
          exact absurd hmem (List.count_eq_zero.mp hzero)
        simpa using hne
      simp [classTrace, hcl, List.foldl_cons, ih (catStep s t), hfind, hstep]
    all_goals
      have hs' : (catStep s t).metadata = s.metadata :=
        catStep_metadata_of_class_ne s t (by rw [hcl]; simp)
    all_goals
      simp [classTrace, hcl, List.foldl_cons, ih (catStep s t), hs']

lemma foldl_revRows_trace (ts : List PyTable) : ∀ (s : CatState),
    (ts.foldl catStep s).revRows =
      s.revRows ++ ((ts.zip (classTrace s ts)).map contribK).flatten := by
  induction ts with
  | nil => intro s; simp [classTrace]
  | cons t ts ih =>
    intro s
    simp [classTrace, List.foldl_cons, ih (catStep s t), catStep_revRows_class]

lemma foldl_body_trace (ts : List PyTable) : ∀ (s : CatState),
    (ts.foldl catStep s).body =
      s.body ++ ((ts.zip (classTrace s ts)).filter (fun p => decide (p.2 = CatKind.bodyK))).map Prod.fst := by
  induction ts with
  | nil => intro s; simp [classTrace]
  | cons t ts ih =>
    intro s
    rcases hb : catClass s t with _ | _ | _ | _ | _ <;>
      simp [classTrace, List.foldl_cons, ih (catStep s t), catStep_body_class, hb]

/-- Claim C4: classifier exclusivity.  Along the classification trace,
every input position receives exactly one classification; at most one
position is classified as metadata (found once, never reconsidered); the
metadata output is exactly the (first and only) metadata-classified table,
the revision output is exactly the concatenation of the contributions of
the revision-classified tables, and the body output is exactly the list of
body-classified tables — so no table occurrence appears in more than one
of the three outputs. -/
theorem c4_classifier_exclusivity (ts : List PyTable) :
    (classTrace catInit ts).length = ts.length ∧
    (classTrace catInit ts).count CatKind.metaK ≤ 1 ∧
    (categorize_tables ts).1 =
      (match (ts.zip (classTrace catInit ts)).find? (fun p => decide (p.2 = CatKind.metaK)) with
       | some p => some p.1
       | none => none) ∧
    (categorize_tables ts).2.1 = ((ts.zip (classTrace catInit ts)).map contribK).flatten ∧
    (categorize_tables ts).2.2 =
      ((ts.zip (classTrace catInit ts)).filter (fun p => decide (p.2 = CatKind.bodyK))).map Prod.fst := by
  refine ⟨classTrace_length ts catInit, classTrace_count_le ts catInit rfl, ?_, ?_, ?_⟩
  · exact foldl_metadata_trace ts catInit
  · simpa using foldl_revRows_trace ts catInit
  · simpa using foldl_body_trace ts catInit

/-! ## `Extract_Text_Lambda.py`: blocks, geometry, table assembly -/

/-- A Textract bounding box. -/
structure BBox where
  left : ℚ
  top : ℚ
  width : ℚ
  height : ℚ
deriving DecidableEq

/-- One entry of a block's `Relationships` list. -/
structure PyRel where
  relType : String
  ids : List String
deriving DecidableEq

/-- A Textract block.  Keys that the code reads with `.get` are `Option`s;
`Text`, `RowIndex` and `ColumnIndex` are read with `[]` on block kinds
that always carry them. -/
structure PyBlock where
  id : String
  blockType : String
  text : String
  page : Option Nat
  geometry : Option BBox
  relationships : List PyRel
  rowIndex : Nat
  colIndex : Nat
  selectionStatus : Option String
deriving DecidableEq

/-- `block_map = {block["Id"]: block for block in blocks}` followed by
`.get`: the last block with a given id wins. -/
def blockMap (blocks : List PyBlock) (i : String) : Option PyBlock :=
  blocks.reverse.find? (fun b => decide (b.id = i))

/-- `is_block_inside_tables` (`Extract_Text_Lambda.py` lines 52-64). -/
def is_block_inside_tables (lb : PyBlock) (geoms : List BBox) : Bool :=
  match lb.geometry with
  | none => false
  | some box =>
    let cx := box.left + box.width / 2
    let cy := box.top + box.height / 2
    geoms.any (fun t =>
      decide (t.left ≤ cx) && decide (cx ≤ t.left + t.width) &&
      decide (t.top ≤ cy) && decide (cy ≤ t.top + t.height))

/-- Claim C8: a Line block is classified as inside a table exactly when it
has a bounding box whose center point `(left + width/2, top + height/2)`
lies within some table bounding box, inclusively on both axes; in
particular a Line block with no bounding box is never classified as
inside a table. -/
theorem c8_geometric_containment (lb : PyBlock) (geoms : List BBox) :
    is_block_inside_tables lb geoms = true ↔
      ∃ lbox, lb.geometry = some lbox ∧
        ∃ tb ∈ geoms,
          tb.left ≤ lbox.left + lbox.width / 2 ∧
          lbox.left + lbox.width / 2 ≤ tb.left + tb.width ∧
          tb.top ≤ lbox.top + lbox.height / 2 ∧
          lbox.top + lbox.height / 2 ≤ tb.top + tb.height := by
  unfold is_block_inside_tables
  cases hg : lb.geometry with
  | none => simp
  | some box =>
    simp only [List.any_eq_true, Bool.and_eq_true, decide_eq_true_eq, Option.some.injEq]
    constructor
    · rintro ⟨tb, htb, ⟨⟨h1, h2⟩, h3⟩, h4⟩
      exact ⟨box, rfl, tb, htb, h1, h2, h3, h4⟩
    · rintro ⟨lbox, hlbox, tb, htb, h1, h2, h3, h4⟩
      cases hlbox
      exact ⟨tb, htb, ⟨⟨h1, h2⟩, h3⟩, h4⟩

/-- Text of one cell: concatenation of child WORD texts (each followed by
a space) and of `[X] ` / `[ ] ` for child selection elements, finally
stripped (`Extract_Text_Lambda.py` lines 95-109). -/
def cellText (bm : String → Option PyBlock) (cell : PyBlock) : String :=
  pyStripS (cell.relationships.foldl (fun acc rel =>
    if rel.relType = "CHILD" then
      rel.ids.foldl (fun acc2 cid =>
        match bm cid with
        | some w =>
          if w.blockType = "WORD" then acc2 ++ w.text ++ " "
          else if w.blockType = "SELECTION_ELEMENT" then
            acc2 ++ (if w.selectionStatus = some "SELECTED" then "[X] " else "[ ] ")
          else acc2
        | none => acc2) acc
    else acc) "")

/-- The assembled cells of one Table block, in relationship order:
`(RowIndex, ColumnIndex, text)` for every CHILD id that resolves to a
CELL block (`Extract_Text_Lambda.py` lines 86-109). -/
def tableCells (bm : String → Option PyBlock) (t : PyBlock) :
    List (Nat × Nat × String) :=
  ((t.relationships.filter (fun r => decide (r.relType = "CHILD"))).flatMap
      (fun r => r.ids)).filterMap
    (fun cid =>
      match bm cid with
      | some c =>
        if c.blockType = "CELL" then some (c.rowIndex, c.colIndex, cellText bm c)
        else none
      | none => none)

/-- `cells_by_row.setdefault(row_index, {})[col_index] = text`. -/
def rowMapInsert (m : List (Nat × List (Nat × String))) (r c : Nat) (txt : String) :
    List (Nat × List (Nat × String)) :=
  assocSet m r (assocSet ((assocGet m r).getD []) c txt)

/-- The `cells_by_row` nested dict after the cell loop. -/
def cells_by_row (cs : List (Nat × Nat × String)) : List (Nat × List (Nat × String)) :=
  cs.foldl (fun m p => rowMapInsert m p.1 p.2.1 p.2.2) []

/-- `sorted(...)` on `Nat` keys. -/
def insSortN (l : List Nat) : List Nat := l.insertionSort (· ≤ ·)

/-- The `sorted_rows` loop (`Extract_Text_Lambda.py` lines 111-117): rows
in ascending row-index order, and within each row the present cells in
ascending column-index order. -/
def sorted_rows (m : List (Nat × List (Nat × String))) : List (List String) :=
  (insSortN (m.map Prod.fst)).map (fun r =>
    let inner := (assocGet m r).getD []
    (insSortN (inner.map Prod.fst)).map (fun c => (assocGet inner c).getD ""))

/-- The full row grid assembled for one Table block. -/
def assembleTableRows (bm : String → Option PyBlock) (t : PyBlock) : List (List String) :=
  sorted_rows (cells_by_row (tableCells bm t))

/-! ## `Extract_Text_Lambda.py`: fallback tables from whitespace runs -/

/-- `re.search(r"\s{2,}", line)`: the line contains two consecutive
whitespace characters. -/
def hasRun2 : List Char → Bool
  | c1 :: c2 :: t => (pyIsSpace c1 && pyIsSpace c2) || hasRun2 (c2 :: t)
  | _ => false

/-- `re.split(r"\s{2,}", l)`: split on every maximal run of at least two
whitespace characters.  The fuel only bounds the recursion; each step
consumes at least one character, so `fuel = length` is always enough and
the fuel-exhausted branch is unreachable. -/
def splitRunsF : Nat → List Char → List Char → List (List Char)
  | 0, acc, rest => [acc.reverse ++ rest]
  | _ + 1, acc, [] => [acc.reverse]
  | f + 1, acc, c1 :: rest =>
    match rest with
    | c2 :: t =>
      if pyIsSpace c1 && pyIsSpace c2 then
        acc.reverse :: splitRunsF f [] (t.dropWhile pyIsSpace)
      else splitRunsF f (c1 :: acc) rest
    | [] => [(c1 :: acc).reverse]

/-- `re.split(r"\s{2,}", l)` on a whole line. -/
def pySplitRuns (l : List Char) : List (List Char) := splitRunsF l.length [] l

/-- `[re.split(r"\s{2,}", l.strip()) for l in buffer]`. -/
def fallbackRows (buf : List String) : List (List String) :=
  buf.map (fun s => (pySplitRuns (pyStrip s.toList)).map String.mk)

/-- A `FALLBACK_REGEX` table emitted from a buffer of qualifying lines. -/
def mkFallbackTable (page : Nat) (buf : List String) : PyTable :=
  ⟨some page, some "FALLBACK_REGEX", some (fallbackRows buf)⟩

/-- The per-page fallback loop (`Extract_Text_Lambda.py` lines 125-150):
skip lines inside tables, buffer lines containing a `\s{2,}` run, flush
the buffer as a table when a non-qualifying line (or the page end) is
reached and the buffer holds at least two lines. -/
def procLines (geoms : List BBox) (page : Nat) (buffer : List String) :
    List PyBlock → List PyTable
  | [] => if buffer.length ≥ 2 then [mkFallbackTable page buffer] else []
  | b :: rest =>
    if is_block_inside_tables b geoms then procLines geoms page buffer rest
    else if hasRun2 b.text.toList then procLines geoms page (buffer ++ [b.text]) rest
    else
      (if buffer.length ≥ 2 then [mkFallbackTable page buffer] else []) ++
        procLines geoms page [] rest

/-- `extract_text_and_tables` (`Extract_Text_Lambda.py` lines 67-152):
raw text joined from LINE blocks, Textract tables assembled from TABLE
blocks in block order, then per-page fallback tables in order of first
appearance of each page. -/
def extract_text_and_tables (blocks : List PyBlock) : String × List PyTable :=
  let bm := blockMap blocks
  let lineBlocks := blocks.filter (fun b => decide (b.blockType = "LINE"))
  let tableBlocks := blocks.filter (fun b => decide (b.blockType = "TABLE"))
  let rawText := String.intercalate "\n" (lineBlocks.map (fun b => b.text))
  let geoms := tableBlocks.filterMap (fun b => b.geometry)
  let textractTables := tableBlocks.map (fun b =>
    PyTable.mk (some (b.page.getD 1)) (some "TEXTRACT_TABLE")
      (some (assembleTableRows bm b)))
  let pageGroups : List (Nat × List PyBlock) := lineBlocks.foldl
    (fun m b =>
      assocSet m (b.page.getD 1) ((assocGet m (b.page.getD 1)).getD [] ++ [b])) []
  let fallbackTables := pageGroups.flatMap (fun pg => procLines geoms pg.1 [] pg.2)
  (rawText, textractTables ++ fallbackTables)

/-! ## Claim C2: the assembled grid is ragged, not densified -/

/-- Maximum column index observed across the assembled cells of a table. -/
def maxColIdx (cs : List (Nat × Nat × String)) : Nat :=
  cs.foldr (fun p m => max p.2.1 m) 0

/-- Claim C2 as stated (its refutable core): for every TableGrid produced
by the table assembler from a Table block's cells, every row has the same
column count, equal to the maximum column index observed across all cells
of that table. -/
def C2Stated : Prop :=
  ∀ (blocks : List PyBlock) (b : PyBlock), b ∈ blocks → b.blockType = "TABLE" →
    ∀ row ∈ assembleTableRows (blockMap blocks) b,
      row.length = maxColIdx (tableCells (blockMap blocks) b)

/-- A table whose cell graph has cells at (1,1), (1,2) and (2,1) only:
the assembled grid is `[["", ""], [""]]`, with ragged row widths. -/
def c2Blocks : List PyBlock :=
  [⟨"t1", "TABLE", "", some 1, none, [⟨"CHILD", ["c1", "c2", "c3"]⟩], 0, 0, none⟩,
   ⟨"c1", "CELL", "", some 1, none, [], 1, 1, none⟩,
   ⟨"c2", "CELL", "", some 1, none, [], 1, 2, none⟩,
   ⟨"c3", "CELL", "", some 1, none, [], 2, 1, none⟩]

/-- Counterexample to claim C2 as stated: in `c2Blocks` the maximum column
index is 2 but the second assembled row has width 1 — the assembler never
pads rows to a common width. -/
theorem c2_counterexample : ¬ C2Stated := by
  intro h
  have h2 := h c2Blocks
    ⟨"t1", "TABLE", "", some 1, none, [⟨"CHILD", ["c1", "c2", "c3"]⟩], 0, 0, none⟩
    (by decide) rfl [""] (by decide)
  exact absurd h2 (by decide)

lemma assocGet_set_self {K V : Type} [DecidableEq K]
    (m : List (K × V)) (k : K) (v : V) : assocGet (assocSet m k v) k = some v := by
  induction m with
  | nil => simp [assocSet, assocGet]
  | cons p rest ih =>
    by_cases h : p.1 = k
    · simp [assocSet, assocGet, h]
    · simp [assocSet, assocGet, h, ih]

lemma assocGet_set_ne {K V : Type} [DecidableEq K]
    (m : List (K × V)) (k k' : K) (v : V) (h : k' ≠ k) :
    assocGet (assocSet m k v) k' = assocGet m k' := by
  induction m with
  | nil => simp [assocSet, assocGet, Ne.symm h]
  | cons p rest ih =>
    obtain ⟨a, b⟩ := p
    by_cases hp : a = k
    · subst hp
      simp [assocSet, assocGet, Ne.symm h]
    · simp [assocSet, assocGet, hp, ih]

lemma assocSet_keys {K V : Type} [DecidableEq K]
    (m : List (K × V)) (k : K) (v : V) :
    (assocSet m k v).map Prod.fst =
      if k ∈ m.map Prod.fst then m.map Prod.fst else m.map Prod.fst ++ [k] := by
  induction m with
  | nil => simp [assocSet]
  | cons p rest ih =>
    by_cases h : p.1 = k
    · simp [assocSet, h]
    · simp only [assocSet, if_neg h, List.map_cons, ih]
      by_cases hk : k ∈ rest.map Prod.fst
      · simp [hk, Ne.symm h]
      · simp [hk, Ne.symm h]

lemma assocSet_keys_mem {K V : Type} [DecidableEq K]
    (m : List (K × V)) (k a : K) (v : V) :
    a ∈ (assocSet m k v).map Prod.fst ↔ a ∈ m.map Prod.fst ∨ a = k := by
  rw [assocSet_keys]
  by_cases h : k ∈ m.map Prod.fst
  · simp only [if_pos h]
    constructor
    · exact fun ha => Or.inl ha
    · rintro (ha | rfl)
      · exact ha
      · exact h
  · simp [if_neg h]

lemma assocSet_keys_nodup {K V : Type} [DecidableEq K]
    (m : List (K × V)) (k : K) (v : V) (h : (m.map Prod.fst).Nodup) :
    ((assocSet m k v).map Prod.fst).Nodup := by
  rw [assocSet_keys]
  by_cases hk : k ∈ m.map Prod.fst
  · simpa [hk] using h
  · simpa [hk, List.nodup_append] using h

/-- Folding plain dict assignments `d[k] = v` over a list of pairs. -/
def assocFold {K V : Type} [DecidableEq K]
    (ps : List (K × V)) (m0 : List (K × V)) : List (K × V) :=
  ps.foldl (fun m p => assocSet m p.1 p.2) m0

/-- The value the dict finally holds for key `k`: the value of the last
pair of `ps` with that key, when one exists. -/
def lastVal {K V : Type} [DecidableEq K] (ps : List (K × V)) (k : K) : Option V :=
  (ps.reverse.find? (fun p => decide (p.1 = k))).map Prod.snd

lemma lastVal_cons {K V : Type} [DecidableEq K]
    (p : K × V) (rest : List (K × V)) (k : K) :
    lastVal (p :: rest) k =
      match lastVal rest k with
      | some v => some v
      | none => if p.1 = k then some p.2 else none := by
  unfold lastVal
  rw [List.reverse_cons, List.find?_append]
  rcases h : rest.reverse.find? (fun q => decide (q.1 = k)) with _ | q
  · by_cases hp : p.1 = k <;> simp [h, List.find?, hp]
  · simp [h]

lemma assocFold_lookup {K V : Type} [DecidableEq K]
    (ps : List (K × V)) : ∀ (m0 : List (K × V)) (k : K),
    assocGet (assocFold ps m0) k =
      match lastVal ps k with
      | some v => some v
      | none => assocGet m0 k := by
  induction ps with
  | nil => intro m0 k; simp [assocFold, lastVal]
  | cons p rest ih =>
    intro m0 k
    have hstep : assocFold (p :: rest) m0 = assocFold rest (assocSet m0 p.1 p.2) := rfl
    rw [hstep, ih, lastVal_cons]
    rcases h : lastVal rest k with _ | v
    · by_cases hp : p.1 = k
      · subst hp
        simp [assocGet_set_self]
      · simp [hp, assocGet_set_ne m0 p.1 k p.2 (Ne.symm hp)]
    · rfl

lemma assocFold_keys_mem {K V : Type} [DecidableEq K]
    (ps : List (K × V)) : ∀ (m0 : List (K × V)) (a : K),
    a ∈ (assocFold ps m0).map Prod.fst ↔ a ∈ m0.map Prod.fst ∨ a ∈ ps.map Prod.fst := by
  induction ps with
  | nil => intro m0 a; simp [assocFold]
  | cons p rest ih =>
    intro m0 a
    have hstep : assocFold (p :: rest) m0 = assocFold rest (assocSet m0 p.1 p.2) := rfl
    rw [hstep, ih, assocSet_keys_mem]
    simp [or_assoc, or_comm, or_left_comm]

lemma assocFold_keys_nodup {K V : Type} [DecidableEq K]
    (ps : List (K × V)) : ∀ (m0 : List (K × V)),
    (m0.map Prod.fst).Nodup → ((assocFold ps m0).map Prod.fst).Nodup := by
  induction ps with
  | nil => intro m0 h; exact h
  | cons p rest ih =>
    intro m0 h
    exact ih (assocSet m0 p.1 p.2) (assocSet_keys_nodup m0 p.1 p.2 h)

/-- `cells_by_row` starting from an arbitrary dict. -/
def cbrFrom (cs : List (Nat × Nat × String))
    (m : List (Nat × List (Nat × String))) : List (Nat × List (Nat × String)) :=
  cs.foldl (fun m p => rowMapInsert m p.1 p.2.1 p.2.2) m

lemma cells_by_row_eq_cbrFrom (cs : List (Nat × Nat × String)) :
    cells_by_row cs = cbrFrom cs [] := rfl

lemma cbr_lookup (cs : List (Nat × Nat × String)) :
    ∀ (m : List (Nat × List (Nat × String))) (r : Nat),
    assocGet (cbrFrom cs m) r =
      if assocGet m r = none ∧ cs.filter (fun p => decide (p.1 = r)) = [] then none
      else some (assocFold ((cs.filter (fun p => decide (p.1 = r))).map (fun p => p.2))
                  ((assocGet m r).getD [])) := by
  induction cs with
  | nil =>
    intro m r
    rcases h : assocGet m r with _ | i <;> simp [cbrFrom, assocFold, h]
  | cons p cs ih =>
    intro m r
    have hstep : cbrFrom (p :: cs) m = cbrFrom cs (rowMapInsert m p.1 p.2.1 p.2.2) := rfl
    by_cases hp : p.1 = r
    · subst hp
      rw [hstep, ih]
      have hget : assocGet (rowMapInsert m p.1 p.2.1 p.2.2) p.1 =
          some (assocSet ((assocGet m p.1).getD []) p.2.1 p.2.2) := by
        unfold rowMapInsert
        exact assocGet_set_self m p.1 _
      rw [hget]
      simp [List.filter_cons, assocFold]
    · rw [hstep, ih]
      have hget : assocGet (rowMapInsert m p.1 p.2.1 p.2.2) r = assocGet m r := by
        unfold rowMapInsert
        exact assocGet_set_ne m p.1 r _ (Ne.symm hp)
      rw [hget]
      have hfil : List.filter (fun q => decide (q.1 = r)) (p :: cs) =
          List.filter (fun q => decide (q.1 = r)) cs := by
        simp [List.filter_cons, hp]
      rw [hfil]

lemma cbr_keys_mem (cs : List (Nat × Nat × String)) :
    ∀ (m : List (Nat × List (Nat × String))) (a : Nat),
    a ∈ (cbrFrom cs m).map Prod.fst ↔
      a ∈ m.map Prod.fst ∨ a ∈ cs.map (fun p => p.1) := by
  induction cs with
  | nil => intro m a; simp [cbrFrom]
  | cons p cs ih =>
    intro m a
    have hstep : cbrFrom (p :: cs) m = cbrFrom cs (rowMapInsert m p.1 p.2.1 p.2.2) := rfl
    rw [hstep, ih]
    unfold rowMapInsert
    rw [assocSet_keys_mem]
    simp [or_assoc, or_comm, or_left_comm]

lemma cbr_keys_nodup (cs : List (Nat × Nat × String)) :
    ∀ (m : List (Nat × List (Nat × String))),
    (m.map Prod.fst).Nodup → ((cbrFrom cs m).map Prod.fst).Nodup := by
  induction cs with
  | nil => intro m h; exact h
  | cons p cs ih =>
    intro m h
    exact ih (rowMapInsert m p.1 p.2.1 p.2.2) (assocSet_keys_nodup m p.1 _ h)

lemma insSortN_eq_of (l1 l2 : List Nat) (h1 : l1.Nodup) (h2 : l2.Nodup)
    (hm : ∀ a, a ∈ l1 ↔ a ∈ l2) : insSortN l1 = insSortN l2 :=
  List.eq_of_perm_of_sorted
    (((List.perm_insertionSort _ l1).trans
        ((List.perm_ext_iff_of_nodup h1 h2).mpr hm)).trans
      (List.perm_insertionSort _ l2).symm)
    (List.sorted_insertionSort _ l1) (List.sorted_insertionSort _ l2)

/-- The grid described by the spec's words for the amended claim C2: one
output row per distinct row index (ascending); in each row one entry per
distinct column index among that row's assembled cells (ascending); each
entry is the text of the last assembled cell at that (row, column). -/
def specGrid (cs : List (Nat × Nat × String)) : List (List String) :=
  (insSortN ((cs.map (fun p => p.1)).dedup)).map (fun r =>
    (insSortN (((cs.filter (fun p => decide (p.1 = r))).map (fun p => p.2.1)).dedup)).map
      (fun c =>
        (lastVal ((cs.filter (fun p => decide (p.1 = r))).map (fun p => p.2)) c).getD ""))

/-- Claim C2 amended: the grid assembled from a Table block's cells is not
densified; it has exactly one row per distinct row index (in ascending
order), each row has exactly one entry per distinct column index among
that row's assembled cells (in ascending order, the last assembled cell
winning at a repeated position), and positions with no assembled cell are
omitted rather than filled with the empty string. -/
theorem c2_ragged_grid (cs : List (Nat × Nat × String)) :
    sorted_rows (cells_by_row cs) = specGrid cs := by
  unfold sorted_rows specGrid
  have hkeys : insSortN ((cells_by_row cs).map Prod.fst) =
      insSortN ((cs.map (fun p => p.1)).dedup) := by
    apply insSortN_eq_of
    · exact cbr_keys_nodup cs [] (by simp)
    · exact List.nodup_dedup _
    · intro a
      rw [List.mem_dedup, cells_by_row_eq_cbrFrom]
      simpa using cbr_keys_mem cs [] a
  rw [hkeys]
  apply List.map_congr_left
  intro r hr
  have hrmem : r ∈ cs.map (fun p => p.1) :=
    List.mem_dedup.mp ((List.perm_insertionSort _ _).mem_iff.mp hr)
  have hfne : cs.filter (fun p => decide (p.1 = r)) ≠ [] := by
    rcases List.mem_map.mp hrmem with ⟨p, hp, hpr⟩
    intro hemp
    have hmem : p ∈ cs.filter (fun p => decide (p.1 = r)) :=
      List.mem_filter.mpr ⟨hp, by simp [hpr]⟩
    rw [hemp] at hmem
    exact absurd hmem (List.not_mem_nil p)
  have hlook := cbr_lookup cs [] r
  rw [if_neg (by simp [hfne, assocGet])] at hlook
  have hnone : assocGet ([] : List (Nat × List (Nat × String))) r = none := rfl
  rw [hnone] at hlook
  simp only [Option.getD_none] at hlook
  rw [cells_by_row_eq_cbrFrom, hlook, Option.getD_some]
  have hinnerkeys :
      insSortN ((assocFold ((cs.filter (fun p => decide (p.1 = r))).map (fun p => p.2))
          []).map Prod.fst) =
      insSortN (((cs.filter (fun p => decide (p.1 = r))).map (fun p => p.2.1)).dedup) := by
    apply insSortN_eq_of
    · exact assocFold_keys_nodup _ _ (by simp)
    · exact List.nodup_dedup _
    · intro a
      rw [List.mem_dedup]
      have hm := assocFold_keys_mem ((cs.filter (fun p => decide (p.1 = r))).map (fun p => p.2))
        [] a
      rw [hm]
      simp [List.map_map, Function.comp]
  dsimp only
  rw [hinnerkeys]
  apply List.map_congr_left
  intro c _
  rw [assocFold_lookup]
  rcases hl : lastVal ((cs.filter (fun p => decide (p.1 = r))).map (fun p => p.2)) c with _ | v
  · rw [hl]
    rfl
  · rw [hl]

/-! ## Claim C7: fallback tables from whitespace-aligned runs -/

/-- The page's fallback loop on the already-filtered line texts. -/
def procTexts (page : Nat) (buffer : List String) : List String → List PyTable
  | [] => if buffer.length ≥ 2 then [mkFallbackTable page buffer] else []
  | s :: rest =>
    if hasRun2 s.toList then procTexts page (buffer ++ [s]) rest
    else
      (if buffer.length ≥ 2 then [mkFallbackTable page buffer] else []) ++
        procTexts page [] rest

/-- Spec-side view for claim C7: the maximal runs of consecutive
qualifying lines (lines containing a `\s{2,}` separator), in order; a
non-qualifying line closes the current run.  Runs broken by non-qualifying
lines appear as (possibly empty) chunks. -/
def chunksOf (ls : List String) : List (List String) :=
  let p := ls.foldr
    (fun s acc => if hasRun2 s.toList then (s :: acc.1, acc.2) else ([], acc.1 :: acc.2))
    ([], [])
  p.1 :: p.2

/-- Spec-side view for claim C7: each maximal run of at least two
qualifying lines becomes one FallbackFromText table. -/
def fallbackSpec (page : Nat) (ls : List String) : List PyTable :=
  ((chunksOf ls).filter (fun c => decide (c.length ≥ 2))).map (mkFallbackTable page)

lemma chunksOf_cons (s : String) (rest : List String) :
    chunksOf (s :: rest) =
      if hasRun2 s.data = true then (s :: (chunksOf rest).headI) :: (chunksOf rest).tail
      else [] :: chunksOf rest := by
  by_cases hq : hasRun2 s.data = true <;> simp [chunksOf, hq]

lemma procLines_eq_procTexts (geoms : List BBox) (page : Nat) :
    ∀ (lbs : List PyBlock) (buffer : List String),
    procLines geoms page buffer lbs =
      procTexts page buffer
        ((lbs.filter (fun b => !is_block_inside_tables b geoms)).map (fun b => b.text)) := by
  intro lbs
  induction lbs with
  | nil => intro buffer; rfl
  | cons b rest ih =>
    intro buffer
    by_cases hin : is_block_inside_tables b geoms = true
    · simp [procLines, List.filter_cons, hin, ih buffer]
    · by_cases hq : hasRun2 b.text.data = true
      · simp [procLines, procTexts, List.filter_cons, hin, hq, ih (buffer ++ [b.text])]
      · simp [procLines, procTexts, List.filter_cons, hin, hq, ih []]

lemma procTexts_chunks (page : Nat) :
    ∀ (ls : List String) (buffer : List String),
    procTexts page buffer ls =
      (((buffer ++ (chunksOf ls).headI) :: (chunksOf ls).tail).filter
          (fun c => decide (c.length ≥ 2))).map (mkFallbackTable page) := by
  intro ls
  induction ls with
  | nil =>
    intro buffer
    by_cases hb : buffer.length ≥ 2 <;>
      simp [procTexts, chunksOf, List.filter_cons, hb]
  | cons s rest ih =>
    intro buffer
    rw [chunksOf_cons]
    by_cases hq : hasRun2 s.data = true
    · have hstep : procTexts page buffer (s :: rest) = procTexts page (buffer ++ [s]) rest := by
        simp [procTexts, hq]
      rw [hstep, ih (buffer ++ [s]), if_pos hq]
      simp
    · have hstep : procTexts page buffer (s :: rest) =
          (if buffer.length ≥ 2 then [mkFallbackTable page buffer] else []) ++
            procTexts page [] rest := by
        simp [procTexts, hq]
      rw [hstep, ih [], if_neg hq]
      have hchunks : ((chunksOf rest).headI :: (chunksOf rest).tail) = chunksOf rest := by
        unfold chunksOf
        rfl
      rw [List.nil_append, hchunks]
      by_cases hb : buffer.length ≥ 2 <;>
        simp [List.filter_cons, hb]

/-- Claim C7: per page, the loop over the lines not inside any table
buffers the lines containing a run of at least two consecutive whitespace
characters; every maximal run of such lines of length at least two is
emitted as one FALLBACK_REGEX table (each buffered line stripped and split
on the whitespace runs into row cells), shorter runs are discarded, and a
trailing run at page end is flushed by the same rule. -/
theorem c7_fallback_tables (geoms : List BBox) (page : Nat) (lbs : List PyBlock) :
    procLines geoms page [] lbs =
      fallbackSpec page
        ((lbs.filter (fun b => !is_block_inside_tables b geoms)).map (fun b => b.text)) := by
  rw [procLines_eq_procTexts geoms page lbs [],
    procTexts_chunks page ((lbs.filter (fun b => !is_block_inside_tables b geoms)).map (fun b => b.text)) []]
  unfold fallbackSpec
  have hchunks : ∀ (ls : List String), ((chunksOf ls).headI :: (chunksOf ls).tail) = chunksOf ls := by
    intro ls
    unfold chunksOf
    rfl
  rw [List.nil_append, hchunks]

/-! ## `SOP_Structure_Formation.py`: HEADING_REGEX and section parsing

`HEADING_REGEX = ^(\d+(?:\.\d+)*\s+(?!EXCL).{3,})$` with
`re.MULTILINE | re.IGNORECASE`, where `EXCL` is an alternation of nine
end-anchored false-positive shapes.  Because `.` cannot cross a newline
and the pattern is anchored by `^ ... $`, a match runs from a line start
to the end of the line containing the final `.{3,}` block; `\s+` may
cross newlines and is backtracked from its maximal run downwards, and the
numeral part admits only its maximal parse (shrinking `\d+` or the
`(?:\.\d+)*` star always leaves a digit or a dot under `\s+`, which
fails). -/

/-- Tokens of the small existence-only regex matcher used for the nine
lookahead alternatives. -/
inductive RTok where
  | cls (p : Char → Bool) (lo : Nat) (hi : Option Nat)
  | lit (s : List Char)
  | opt (g : List RTok)
  | starG (g : List RTok)
  | dollar

/-- Case-insensitive prefix test (`re.IGNORECASE`). -/
def ciPrefix : List Char → List Char → Bool
  | [], _ => true
  | _ :: _, [] => false
  | a :: pa, b :: ib => ciEqChar a b && ciPrefix pa ib

/-- Does the token sequence match a prefix of the input (with `dollar`
anchoring at a line boundary)?  Pure existence semantics: the order in
which alternatives are explored cannot be observed.  Fuel only bounds the
recursion; every recursive call either consumes a token or one input
character (each `starG` body consumes at least one character), so the
fuel used below is sufficient. -/
def rmatch : Nat → List RTok → List Char → Bool
  | 0, _, _ => false
  | _ + 1, [], _ => true
  | f + 1, .dollar :: rest, [] => rmatch f rest []
  | f + 1, .dollar :: rest, c :: t => decide (c = '\n') && rmatch f rest (c :: t)
  | f + 1, .lit s :: rest, l => ciPrefix s l && rmatch f rest (l.drop s.length)
  | f + 1, .opt g :: rest, l => rmatch f (g ++ rest) l || rmatch f rest l
  | f + 1, .starG g :: rest, l => rmatch f rest l || rmatch f (g ++ .starG g :: rest) l
  | f + 1, .cls p lo hi :: rest, l =>
    if lo = 0 then
      (match hi with
       | some 0 => rmatch f rest l
       | _ =>
         rmatch f rest l ||
           (match l with
            | [] => false
            | c :: t => p c && rmatch f (.cls p 0 (hi.map (fun n => n - 1)) :: rest) t))
    else
      match l with
      | [] => false
      | c :: t => p c && rmatch f (.cls p (lo - 1) (hi.map (fun n => n - 1)) :: rest) t

/-- `[A-Z&\s]` under `re.IGNORECASE`. -/
def azAmpWs (c : Char) : Bool := pyIsAlpha c || c = '&' || pyIsSpace c

/-- The apostrophe character, for `(?:'\w+)?`. -/
def apoChar : Char := Char.ofNat 39

/-- The nine alternatives of the negative lookahead of `HEADING_REGEX`,
in source order:
`\d+(?:\.\d+)*\s*$`, `and\s+\d+\s*$`, `and\s+Box\s+\d+\s*$`,
`with\s+\w+(?:'\w+)?\s*$`, `for\s+\w+\s*$`, `threshold\s+for\s*$`,
`\w{3,9}\s+\d{1,2},\s+\d{4}\s*$`, `\d{4}\s+period\s*$`,
`Added\s+[A-Z&\s]+\s*$`. -/
def exclAlts : List (List RTok) :=
  [[.cls pyIsDigit 1 none, .starG [.lit ['.'], .cls pyIsDigit 1 none],
    .cls pyIsSpace 0 none, .dollar],
   [.lit ['a', 'n', 'd'], .cls pyIsSpace 1 none, .cls pyIsDigit 1 none,
    .cls pyIsSpace 0 none, .dollar],
   [.lit ['a', 'n', 'd'], .cls pyIsSpace 1 none, .lit ['b', 'o', 'x'],
    .cls pyIsSpace 1 none, .cls pyIsDigit 1 none, .cls pyIsSpace 0 none, .dollar],
   [.lit ['w', 'i', 't', 'h'], .cls pyIsSpace 1 none, .cls pyIsWord 1 none,
    .opt [.lit [apoChar], .cls pyIsWord 1 none], .cls pyIsSpace 0 none, .dollar],
   [.lit ['f', 'o', 'r'], .cls pyIsSpace 1 none, .cls pyIsWord 1 none,
    .cls pyIsSpace 0 none, .dollar],
   [.lit ['t', 'h', 'r', 'e', 's', 'h', 'o', 'l', 'd'], .cls pyIsSpace 1 none,
    .lit ['f', 'o', 'r'], .cls pyIsSpace 0 none, .dollar],
   [.cls pyIsWord 3 (some 9), .cls pyIsSpace 1 none, .cls pyIsDigit 1 (some 2),
    .lit [','], .cls pyIsSpace 1 none, .cls pyIsDigit 4 (some 4),
    .cls pyIsSpace 0 none, .dollar],
   [.cls pyIsDigit 4 (some 4), .cls pyIsSpace 1 none,
    .lit ['p', 'e', 'r', 'i', 'o', 'd'], .cls pyIsSpace 0 none, .dollar],
   [.lit ['a', 'd', 'd', 'e', 'd'], .cls pyIsSpace 1 none, .cls azAmpWs 1 none,
    .cls pyIsSpace 0 none, .dollar]]

/-- Does the negative-lookahead alternation match at the start of the
suffix `l`? -/
def exclMatch (l : List Char) : Bool :=
  exclAlts.any (fun alt => rmatch ((l.length + 4) * 8) alt l)

/-- Length of the maximal `(?:\.\d+)*` parse at the start of `l`
(fuelled; each iteration consumes at least two characters, so
`fuel = length` suffices). -/
def numTailF : Nat → List Char → Nat
  | 0, _ => 0
  | f + 1, l =>
    match l with
    | c :: t =>
      if c = '.' ∧ 0 < (t.takeWhile pyIsDigit).length then
        1 + (t.takeWhile pyIsDigit).length +
          numTailF f (t.drop ((t.takeWhile pyIsDigit).length))
      else 0
    | [] => 0

/-- Position of the end of the line containing position `q` (the next
newline, or the end of the text): where `$` can match and `.{3,}` must
stop. -/
def lineEndFrom (text : List Char) (q : Nat) : Nat :=
  q + ((text.drop q).takeWhile (fun c => !decide (c = '\n'))).length

/-- Backtracking of `\s+`: try the split points `q = p0 + cnt, …, p0 + 1`
in this order; at each, the lookahead must fail and at least three
non-newline characters must remain on the line. -/
def qSearch (text : List Char) (p0 : Nat) : Nat → Option Nat
  | 0 => none
  | cnt + 1 =>
    let q := p0 + (cnt + 1)
    let e := lineEndFrom text q
    if !exclMatch (text.drop q) && decide (3 ≤ e - q) then some e
    else qSearch text p0 cnt

/-- Attempt to match `HEADING_REGEX` at position `p` (which the caller
guarantees to be a line start); returns the end position of the match. -/
def matchAt (text : List Char) (p : Nat) : Option Nat :=
  let suff := text.drop p
  let d := (suff.takeWhile pyIsDigit).length
  if d = 0 then none
  else
    let n := d + numTailF (suff.drop d).length (suff.drop d)
    let k := ((suff.drop n).takeWhile pyIsSpace).length
    if k = 0 then none
    else qSearch text (p + n) k

/-- `re.MULTILINE` `^`: position 0 or just after a newline. -/
def isLineStart (text : List Char) (p : Nat) : Bool :=
  decide (p = 0) || decide (text.getD (p - 1) ' ' = '\n')

/-- The `finditer` scan: try every position left to right, emit
non-overlapping matches, resume after each match. -/
def scanF (text : List Char) : Nat → Nat → List (Nat × Nat)
  | 0, _ => []
  | f + 1, p =>
    if decide (text.length ≤ p) then []
    else if isLineStart text p then
      match matchAt text p with
      | some e => (p, e) :: scanF text f (max e (p + 1))
      | none => scanF text f (p + 1)
    else scanF text f (p + 1)

/-- All matches of `HEADING_REGEX` in the text, as (start, end) pairs. -/
def findMatches (text : List Char) : List (Nat × Nat) :=
  scanF text (text.length + 1) 0

/-- A heading record of `_parse_sections`. -/
structure PyHeading where
  heading : List Char
  startPos : Nat
  endPos : Nat
deriving DecidableEq

/-- Python slice `text[a:b]`. -/
def sliceL (text : List Char) (a b : Nat) : List Char := (text.drop a).take (b - a)

/-- The headings list of `_parse_sections`
(`SOP_Structure_Formation.py` lines 36-42): `match.group(1).strip()` with
the match's start and end offsets. -/
def parse_headings (text : List Char) : List PyHeading :=
  (findMatches text).map (fun pe => ⟨pyStrip (sliceL text pe.1 pe.2), pe.1, pe.2⟩)

/-- The `(heading, body)` pairs of `_parse_sections` lines 45-48: each
heading's body runs from the end of its own match to the start of the
next heading's match (or the end of the text), stripped. -/
def buildContent (text : List Char) : List PyHeading → List (List Char × List Char)
  | [] => []
  | [h] => [(h.heading, pyStrip (sliceL text h.endPos text.length))]
  | h :: h2 :: rest =>
    (h.heading, pyStrip (sliceL text h.endPos h2.startPos)) :: buildContent text (h2 :: rest)

/-- The `content_map` dict of `_parse_sections` (later assignments to a
duplicated heading text overwrite earlier ones). -/
def content_map (text : List Char) : List (List Char × List Char) :=
  assocFold (buildContent text (parse_headings text)) []

/-- `MAIN_SECTION_REGEX = ^\d+\s` applied with `.match` to a heading
text: a nonempty leading digit run followed immediately by a whitespace
character (shrinking `\d+` always leaves a digit under `\s`, so only the
maximal digit run need be considered). -/
def mainMatch (h : List Char) : Bool :=
  let d := (h.takeWhile pyIsDigit).length
  decide (1 ≤ d) &&
    (match (h.drop d).head? with
     | some c => pyIsSpace c
     | none => false)

/-- A section under construction in `SOP_Structure_Formation`. -/
structure PySection where
  name : List Char
  subs : List (List Char × List Char)
  content : List Char
deriving DecidableEq

/-- `content_map.get(heading, "").strip()`. -/
def contentOf (cm : List (List Char × List Char)) (h : List Char) : List Char :=
  pyStrip ((assocGet cm h).getD [])

/-- The structured-body loop of `SOP_Structure_Formation`
(lines 92-106): headings matching `MAIN_SECTION_REGEX` open a new
section (closing the current one); other headings become sub-sections of
the current section, or are dropped when no section is open. -/
def bodyLoop (cm : List (List Char × List Char)) (cur : Option PySection) :
    List PyHeading → List PySection
  | [] =>
    match cur with
    | some s => [s]
    | none => []
  | h :: rest =>
    let ct := contentOf cm h.heading
    if mainMatch h.heading then
      match cur with
      | some s => s :: bodyLoop cm (some ⟨h.heading, [], ct⟩) rest
      | none => bodyLoop cm (some ⟨h.heading, [], ct⟩) rest
    else
      match cur with
      | some s => bodyLoop cm (some ⟨s.name, s.subs ++ [(h.heading, ct)], s.content⟩) rest
      | none => bodyLoop cm none rest

/-- The `structured_body` list of `SOP_Structure_Formation`. -/
def structured_body (text : List Char) : List PySection :=
  bodyLoop (content_map text) none (parse_headings text)

/-! ## `SOP_Structure_Formation`: the document assembler -/

/-- One entry of the Extracted-Tables block: "Table #", "Page",
"Source" and "Rows". -/
structure ExtractedEntry where
  tableNum : Nat
  page : Option Nat
  source : Option String
  rows : Option (List (List String))
deriving DecidableEq

/-- One block of the final output list of `SOP_Structure_Formation`. -/
inductive OutBlock where
  | docInfo (metadata : List (String × String))
  | toc (content : List (List Char))
  | sec (s : PySection)
  | revision (table : List (List (String × String)))
  | extracted (tables : List ExtractedEntry)
deriving DecidableEq

/-- The input dict of `SOP_Structure_Formation`: both `raw_text` and
`tables` are read with `.get` and may be absent. -/
structure SopData where
  rawText : Option (List Char)
  tables : Option (List PyTable)

/-- `{row[0]: row[1] for row in rows if len(row) == 2}`. -/
def metaDict (rows : List (List String)) : List (String × String) :=
  assocFold (rows.filterMap (fun row =>
    match row with
    | [a, b] => some (a, b)
    | _ => none)) []

/-- `SOP_Structure_Formation` (lines 82-139): Document Information (when
a metadata table was found — the selected table always has nonempty rows,
hence is a truthy dict), Table of Contents (when any heading was found),
the structured body, Revision History (when any revision rows
accumulated) and Extracted Tables (when any body table remains). -/
def SOP_Structure_Formation (d : SopData) : List OutBlock :=
  let raw := d.rawText.getD []
  let tables := d.tables.getD []
  let cat := categorize_tables tables
  let hs := parse_headings raw
  let cm := content_map raw
  let body := (bodyLoop cm none hs).map OutBlock.sec
  let part1 : List OutBlock :=
    match cat.1 with
    | some mt => [OutBlock.docInfo (metaDict (mt.rows.getD []))]
    | none => []
  let part2 : List OutBlock :=
    if hs.isEmpty then [] else [OutBlock.toc (hs.map (fun h => h.heading))]
  let part4 : List OutBlock :=
    if cat.2.1.isEmpty then []
    else [OutBlock.revision (cat.2.1.map (fun row => REVISION_HEADERS.zip row))]
  let part5 : List OutBlock :=
    if cat.2.2.isEmpty then []
    else [OutBlock.extracted ((cat.2.2.enum).map
      (fun it => ⟨it.1 + 1, it.2.page, it.2.source, it.2.rows⟩))]
  part1 ++ part2 ++ body ++ part4 ++ part5

/-- Is an output block the Document-Information block? -/
def isDocInfoB : OutBlock → Bool
  | .docInfo _ => true
  | _ => false

/-- Is an output block the Table-of-Contents block? -/
def isTocB : OutBlock → Bool
  | .toc _ => true
  | _ => false

/-- Is an output block the Revision-History block? -/
def isRevisionB : OutBlock → Bool
  | .revision _ => true
  | _ => false

/-- Is an output block the Extracted-Tables block? -/
def isExtractedB : OutBlock → Bool
  | .extracted _ => true
  | _ => false

/-- Claim C9: the document assembler is a total function that treats
missing `raw_text` and `tables` exactly like empty ones, and each of the
four optional blocks appears in the output exactly when its content is
nonempty: no metadata table means no Document-Information block, no
headings means no Table-of-Contents block, and empty revision rows or
body tables mean their blocks are omitted. -/
theorem c9_graceful_absence (rt : Option (List Char)) (tb : Option (List PyTable)) :
    SOP_Structure_Formation ⟨none, tb⟩ = SOP_Structure_Formation ⟨some [], tb⟩ ∧
    SOP_Structure_Formation ⟨rt, none⟩ = SOP_Structure_Formation ⟨rt, some []⟩ ∧
    ((SOP_Structure_Formation ⟨rt, tb⟩).any isDocInfoB =
      (categorize_tables (tb.getD [])).1.isSome) ∧
    ((SOP_Structure_Formation ⟨rt, tb⟩).any isTocB =
      !(parse_headings (rt.getD [])).isEmpty) ∧
    ((SOP_Structure_Formation ⟨rt, tb⟩).any isRevisionB =
      !(categorize_tables (tb.getD [])).2.1.isEmpty) ∧
    ((SOP_Structure_Formation ⟨rt, tb⟩).any isExtractedB =
      !(categorize_tables (tb.getD [])).2.2.isEmpty) := by
  refine ⟨rfl, rfl, ?_, ?_, ?_, ?_⟩ <;>
  · unfold SOP_Structure_Formation
    dsimp only
    rcases (categorize_tables (tb.getD [])).1 with _ | mt <;>
      rcases hh : (parse_headings (rt.getD [])).isEmpty with _ | _ <;>
      rcases hrv : (categorize_tables (tb.getD [])).2.1.isEmpty with _ | _ <;>
      rcases hex : (categorize_tables (tb.getD [])).2.2.isEmpty with _ | _ <;>
      simp [hh, hrv, hex, List.any_append, isDocInfoB, isTocB, isRevisionB, isExtractedB,
        List.any_map, Function.comp]

/-! ## Claim C5: body-text spans -/

/-- Claim C5 as stated: the body content associated (via the content map)
with each detected heading is exactly the substring of the text from the
end of that heading's own match to the start of the next heading's match
(or to the end of the text for the last heading), trimmed of surrounding
whitespace. -/
def C5Stated : Prop :=
  ∀ (text : List Char) (i : Nat) (hi : i < (parse_headings text).length),
    assocGet (content_map text) ((parse_headings text).get ⟨i, hi⟩).heading =
      some (pyStrip (sliceL text ((parse_headings text).get ⟨i, hi⟩).endPos
        (match (parse_headings text).get? (i + 1) with
         | some h2 => h2.startPos
         | none => text.length)))

/-- Counterexample to claim C5 as stated: in
`"1 abc\nAA\n1 abc\nBB"` the heading text `1 abc` is detected twice; the
content-map entry for the first occurrence is overwritten by the second,
so the content associated with the first heading is `BB`, not its own
span `AA`. -/
theorem c5_counterexample : ¬ C5Stated := by
  intro h
  have h1 := h ("1 abc\nAA\n1 abc\nBB".toList) 0 (by decide)
  exact absurd h1 (by decide)

lemma lastVal_eq_none_of_not_mem {K V : Type} [DecidableEq K]
    (ps : List (K × V)) (k : K) (h : k ∉ ps.map Prod.fst) : lastVal ps k = none := by
  unfold lastVal
  have hnone : ps.reverse.find? (fun p => decide (p.1 = k)) = none := by
    rw [List.find?_eq_none]
    intro p hp
    simp only [decide_eq_true_eq]
    intro hk
    exact h (List.mem_map.mpr ⟨p, List.mem_reverse.mp hp, hk⟩)
  rw [hnone]
  rfl

lemma lastVal_nodup_get {K V : Type} [DecidableEq K]
    (ps : List (K × V)) (hnd : (ps.map Prod.fst).Nodup) :
    ∀ (i : Nat) (hi : i < ps.length),
    lastVal ps (ps.get ⟨i, hi⟩).1 = some (ps.get ⟨i, hi⟩).2 := by
  induction ps with
  | nil => intro i hi; exact absurd hi (by simp)
  | cons p rest ih =>
    intro i hi
    rw [List.map_cons] at hnd
    rcases List.nodup_cons.mp hnd with ⟨hp, hrest⟩
    match i with
    | 0 =>
      have h0 : (p :: rest).get ⟨0, hi⟩ = p := rfl
      rw [h0, lastVal_cons, lastVal_eq_none_of_not_mem rest p.1 hp]
      simp
    | Nat.succ j =>
      have hj : j < rest.length := Nat.lt_of_succ_lt_succ hi
      have hkey : ((p :: rest).get ⟨j + 1, hi⟩) = rest.get ⟨j, hj⟩ := rfl
      rw [hkey, lastVal_cons, ih hrest j hj]

lemma assocFold_nodup_get {K V : Type} [DecidableEq K]
    (ps : List (K × V)) (hnd : (ps.map Prod.fst).Nodup)
    (i : Nat) (hi : i < ps.length) :
    assocGet (assocFold ps []) (ps.get ⟨i, hi⟩).1 = some (ps.get ⟨i, hi⟩).2 := by
  rw [assocFold_lookup, lastVal_nodup_get ps hnd i hi]

lemma buildContent_length (text : List Char) :
    ∀ (hs : List PyHeading), (buildContent text hs).length = hs.length := by
  intro hs
  induction hs with
  | nil => rfl
  | cons h rest ih =>
    cases rest with
    | nil => rfl
    | cons h2 rest2 => simpa [buildContent] using ih

lemma buildContent_map_fst (text : List Char) :
    ∀ (hs : List PyHeading),
    (buildContent text hs).map Prod.fst = hs.map (fun h => h.heading) := by
  intro hs
  induction hs with
  | nil => rfl
  | cons h rest ih =>
    cases rest with
    | nil => rfl
    | cons h2 rest2 => simpa [buildContent] using ih

lemma buildContent_get (text : List Char) :
    ∀ (hs : List PyHeading) (i : Nat) (hi : i < hs.length)
      (hi' : i < (buildContent text hs).length),
    (buildContent text hs).get ⟨i, hi'⟩ =
      ((hs.get ⟨i, hi⟩).heading,
        pyStrip (sliceL text (hs.get ⟨i, hi⟩).endPos
          (match hs.get? (i + 1) with
           | some h2 => h2.startPos
           | none => text.length))) := by
  intro hs
  induction hs with
  | nil => intro i hi; exact absurd hi (by simp)
  | cons h rest ih =>
    intro i hi hi'
    cases rest with
    | nil =>
      match i with
      | 0 => rfl
      | Nat.succ j => exact absurd hi (by simp)
    | cons h2 rest2 =>
      match i with
      | 0 => rfl
      | Nat.succ j =>
        have hj : j < (h2 :: rest2).length := Nat.lt_of_succ_lt_succ hi
        have hj' : j < (buildContent text (h2 :: rest2)).length := by
          rw [buildContent_length]; exact hj
        exact ih j hj hj'

/-- Claim C5 amended: provided the detected heading texts are pairwise
distinct, the body content associated with each detected heading is
exactly the substring of the text from the end of its own match to the
start of the next heading's match (or the end of the text), stripped.
(With duplicated heading texts the later span overwrites the earlier one
in the content map.) -/
theorem c5_body_spans (text : List Char)
    (hnd : ((parse_headings text).map (fun h => h.heading)).Nodup)
    (i : Nat) (hi : i < (parse_headings text).length) :
    assocGet (content_map text) ((parse_headings text).get ⟨i, hi⟩).heading =
      some (pyStrip (sliceL text ((parse_headings text).get ⟨i, hi⟩).endPos
        (match (parse_headings text).get? (i + 1) with
         | some h2 => h2.startPos
         | none => text.length))) := by
  have hnd' : ((buildContent text (parse_headings text)).map Prod.fst).Nodup := by
    rw [buildContent_map_fst]; exact hnd
  have hi' : i < (buildContent text (parse_headings text)).length := by
    rw [buildContent_length]; exact hi
  have hget := buildContent_get text (parse_headings text) i hi hi'
  have hfold := assocFold_nodup_get (buildContent text (parse_headings text)) hnd' i hi'
  rw [hget] at hfold
  exact hfold

/-- Witness for the amended claim C5 at a concrete input. -/
theorem c5_body_spans_witness :
    ((parse_headings ("1 abc\nZZ".toList)).map (fun h => h.heading)).Nodup ∧
    assocGet (content_map ("1 abc\nZZ".toList))
        ((parse_headings ("1 abc\nZZ".toList)).get ⟨0, by decide⟩).heading =
      some (pyStrip (sliceL ("1 abc\nZZ".toList)
        ((parse_headings ("1 abc\nZZ".toList)).get ⟨0, by decide⟩).endPos
        (match (parse_headings ("1 abc\nZZ".toList)).get? 1 with
         | some h2 => h2.startPos
         | none => ("1 abc\nZZ".toList).length))) :=
  ⟨by decide, c5_body_spans ("1 abc\nZZ".toList) (by decide) 0 (by decide)⟩

/-! ## Claim C6: Section / SubSection assignment -/

/-- Length of the heading's leading numeral (`\d+(\.\d+)*`, maximal
parse). -/
def numeralLen (h : List Char) : Nat :=
  let d := (h.takeWhile pyIsDigit).length
  d + numTailF (h.drop d).length (h.drop d)

/-- The heading's leading numeral. -/
def leadingNumeral (h : List Char) : List Char := h.take (numeralLen h)

/-- Does the heading's leading numeral contain no dot? -/
def noDotNumeral (h : List Char) : Bool := !(leadingNumeral h).contains '.'

/-- Does the heading text extend beyond its bare leading numeral? -/
def extendsNumeral (h : List Char) : Bool := decide (numeralLen h < h.length)

/-- Claim-side Section test for the amended claim C6: leading numeral
without a dot, and the heading is more than the bare numeral. -/
def isSecHeading (h : List Char) : Bool := noDotNumeral h && extendsNumeral h

/-- Claim C6 as stated (its refutable core): every detected heading whose
leading numeral contains no dot appears as a Section of the structured
body. -/
def C6Stated : Prop :=
  ∀ (text : List Char), ∀ hd ∈ parse_headings text, noDotNumeral hd.heading = true →
    ∃ s ∈ structured_body text, s.name = hd.heading

/-- Counterexample to claim C6 as stated: on the text `"3     "` (a digit
followed by five spaces) the regex matches the whole line — `\s+`
backtracks so that `.{3,}` swallows the trailing spaces — and the
stripped heading is the bare numeral `3`, without a dot.  `^\d+\s` then
fails on `3`, so the heading is treated as a SubSection with no open
Section and is dropped: the structured body is empty. -/
theorem c6_counterexample : ¬ C6Stated := by
  intro h
  rcases h ("3     ".toList) ⟨"3".toList, 0, 6⟩ (by decide) (by decide) with ⟨s, hs, _⟩
  have hempty : structured_body ("3     ".toList) = [] := by decide
  rw [hempty] at hs
  exact absurd hs (List.not_mem_nil s)

lemma dropWhile_len_le {A : Type} (pb : A → Bool) :
    ∀ (l : List A), (l.dropWhile pb).length ≤ l.length := by
  intro l
  induction l with
  | nil => simp
  | cons a t ih =>
    by_cases h : pb a = true
    · rw [List.dropWhile_cons, if_pos h]
      exact Nat.le_succ_of_le ih
    · rw [List.dropWhile_cons, if_neg h]

/-- The structured body described by the amended claim C6: drop headings
until the first Section heading; each Section heading opens a section
holding, as sub-sections, exactly the following non-Section headings up
to the next Section heading. -/
def groupSpec (cm : List (List Char × List Char)) : List PyHeading → List PySection
  | [] => []
  | h :: t =>
    if isSecHeading h.heading then
      ⟨h.heading,
        (t.takeWhile (fun x => !isSecHeading x.heading)).map
          (fun x => (x.heading, contentOf cm x.heading)),
        contentOf cm h.heading⟩ ::
        groupSpec cm (t.dropWhile (fun x => !isSecHeading x.heading))
    else groupSpec cm t
termination_by hs => hs.length
decreasing_by
  · simp_wf
    exact Nat.lt_succ_of_le (dropWhile_len_le _ _)
  · simp_wf

lemma bodyLoop_some_eq (cm : List (List Char × List Char)) :
    ∀ (hs : List PyHeading) (s : PySection),
    (∀ hd ∈ hs, mainMatch hd.heading = isSecHeading hd.heading) →
    bodyLoop cm (some s) hs =
      ⟨s.name,
        s.subs ++ (hs.takeWhile (fun x => !isSecHeading x.heading)).map
          (fun x => (x.heading, contentOf cm x.heading)),
        s.content⟩ ::
        groupSpec cm (hs.dropWhile (fun x => !isSecHeading x.heading)) := by
  intro hs
  induction hs with
  | nil =>
    intro s _
    cases s
    simp [bodyLoop, groupSpec]
  | cons h t ih =>
    intro s hyp
    have hh := hyp h (List.mem_cons_self h t)
    have hyp' : ∀ hd ∈ t, mainMatch hd.heading = isSecHeading hd.heading :=
      fun hd hm => hyp hd (List.mem_cons_of_mem h hm)
    by_cases hsec : isSecHeading h.heading = true
    · have hmain : mainMatch h.heading = true := by rw [hh]; exact hsec
      have lhs : bodyLoop cm (some s) (h :: t) =
          s :: bodyLoop cm (some ⟨h.heading, [], contentOf cm h.heading⟩) t := by
        simp [bodyLoop, hmain]
      rw [lhs, ih ⟨h.heading, [], contentOf cm h.heading⟩ hyp']
      rw [List.takeWhile_cons, List.dropWhile_cons]
      simp only [hsec, Bool.not_true, Bool.false_eq_true, if_false]
      rw [groupSpec, if_pos hsec]
      cases s
      simp
    · have hmain : mainMatch h.heading = false := by rw [hh]; exact eq_false_of_ne_true hsec
      have lhs : bodyLoop cm (some s) (h :: t) =
          bodyLoop cm
            (some ⟨s.name, s.subs ++ [(h.heading, contentOf cm h.heading)], s.content⟩) t := by
        simp [bodyLoop, hmain]
      rw [lhs, ih _ hyp']
      rw [List.takeWhile_cons, List.dropWhile_cons]
      simp only [hsec, Bool.not_false, Bool.false_eq_true, if_true, List.map_cons]
      rw [List.append_assoc]
      simp [hsec]

lemma bodyLoop_none_eq (cm : List (List Char × List Char)) :
    ∀ (hs : List PyHeading),
    (∀ hd ∈ hs, mainMatch hd.heading = isSecHeading hd.heading) →
    bodyLoop cm none hs = groupSpec cm hs := by
  intro hs
  induction hs with
  | nil => intro _; simp [bodyLoop, groupSpec]
  | cons h t ih =>
    intro hyp
    have hh := hyp h (List.mem_cons_self h t)
    have hyp' : ∀ hd ∈ t, mainMatch hd.heading = isSecHeading hd.heading :=
      fun hd hm => hyp hd (List.mem_cons_of_mem h hm)
    by_cases hsec : isSecHeading h.heading = true
    · have hmain : mainMatch h.heading = true := by rw [hh]; exact hsec
      have lhs : bodyLoop cm none (h :: t) =
          bodyLoop cm (some ⟨h.heading, [], contentOf cm h.heading⟩) t := by
        simp [bodyLoop, hmain]
      rw [lhs, bodyLoop_some_eq cm t ⟨h.heading, [], contentOf cm h.heading⟩ hyp']
      rw [groupSpec, if_pos hsec]
      simp
    · have hmain : mainMatch h.heading = false := by rw [hh]; exact eq_false_of_ne_true hsec
      have lhs : bodyLoop cm none (h :: t) = bodyLoop cm none t := by
        simp [bodyLoop, hmain]
      rw [lhs, ih hyp', groupSpec, if_neg hsec]

lemma digit_not_ws (c : Char) (h : pyIsDigit c = true) : pyIsSpace c = false := by
  unfold pyIsSpace
  simp only [Bool.or_eq_false_iff, decide_eq_false_iff_not]
  refine ⟨⟨⟨⟨⟨?_, ?_⟩, ?_⟩, ?_⟩, ?_⟩, ?_⟩ <;>
    (intro hc; rw [hc] at h; exact absurd h (by decide))

lemma ws_ne_dot (c : Char) (h : pyIsSpace c = true) : c ≠ '.' := by
  intro hc
  rw [hc] at h
  exact absurd h (by decide)

lemma all_not_dropWhile {A : Type} (pb : A → Bool) :
    ∀ (l : List A), (∀ x ∈ l, pb x = false) → l.dropWhile pb = l := by
  intro l h
  cases l with
  | nil => rfl
  | cons c t =>
    rw [List.dropWhile_cons, if_neg]
    rw [h c (List.mem_cons_self c t)]
    simp

lemma takeWhile_ne_nil_head {A : Type} (pb : A → Bool) (l : List A)
    (h : 0 < (l.takeWhile pb).length) : ∃ c t, l = c :: t ∧ pb c = true := by
  cases l with
  | nil => simp at h
  | cons c t =>
    by_cases hc : pb c = true
    · exact ⟨c, t, rfl, hc⟩
    · rw [List.takeWhile_cons, if_neg (by rw [eq_false_of_ne_true hc]; simp)] at h
      simp at h

lemma takeWhile_drop_split {A : Type} (pb : A → Bool) (l : List A) :
    l = l.takeWhile pb ++ l.drop ((l.takeWhile pb).length) := by
  rcases List.takeWhile_prefix (l := l) pb with ⟨t, ht⟩
  have h2 : l.drop ((l.takeWhile pb).length) = t := by
    have h3 := congrArg (List.drop ((l.takeWhile pb).length)) ht
    rw [List.drop_left] at h3
    exact h3.symm
  rw [h2]
  exact ht.symm

lemma takeWhile_append_all {A : Type} (pb : A → Bool) (l1 l2 : List A)
    (h : ∀ x ∈ l1, pb x = true) : (l1 ++ l2).takeWhile pb = l1 ++ l2.takeWhile pb := by
  induction l1 with
  | nil => rfl
  | cons c t ih =>
    rw [List.cons_append, List.takeWhile_cons, if_pos (h c (List.mem_cons_self c t)),
      ih (fun x hx => h x (List.mem_cons_of_mem c hx))]
    rfl

/-- `str.rstrip()`: drop trailing whitespace. -/
def rstripL (l : List Char) : List Char := (l.reverse.dropWhile pyIsSpace).reverse

lemma pyStrip_eq_rstrip (l : List Char) (c : Char) (t : List Char)
    (hl : l = c :: t) (hc : pyIsSpace c = false) : pyStrip l = rstripL l := by
  unfold pyStrip rstripL
  rw [hl, List.dropWhile_cons, if_neg (by rw [hc]; simp)]

lemma rstrip_append_all (A z : List Char) (hA : ∀ x ∈ A, pyIsSpace x = false) :
    rstripL (A ++ z) = A ++ rstripL z := by
  unfold rstripL
  rw [List.reverse_append, List.dropWhile_append]
  rcases he : (z.reverse.dropWhile pyIsSpace).isEmpty with _ | _
  · simp only [Bool.false_eq_true, if_false]
    rw [List.reverse_append, List.reverse_reverse]
  · simp only [if_true]
    rw [all_not_dropWhile pyIsSpace A.reverse (fun x hx => hA x (List.mem_reverse.mp hx)),
      List.reverse_reverse]
    have hz : z.reverse.dropWhile pyIsSpace = [] := by
      cases hzz : z.reverse.dropWhile pyIsSpace with
      | nil => rfl
      | cons a b => rw [hzz] at he; simp at he
    rw [hz]
    simp

lemma rstrip_prefix (l : List Char) : rstripL l <+: l := by
  unfold rstripL
  rcases List.dropWhile_suffix (l := l.reverse) (p := pyIsSpace) with ⟨t, ht⟩
  refine ⟨t.reverse, ?_⟩
  have := congrArg List.reverse ht
  rw [List.reverse_append, List.reverse_reverse] at this
  exact this

lemma numTailF_le : ∀ (f : Nat) (l : List Char), numTailF f l ≤ l.length := by
  intro f
  induction f with
  | zero => intro l; simp [numTailF]
  | succ f ih =>
    intro l
    cases l with
    | nil => simp [numTailF]
    | cons c t =>
      unfold numTailF
      dsimp only
      by_cases hcond : c = '.' ∧ 0 < (t.takeWhile pyIsDigit).length
      · rw [if_pos hcond]
        have h1 : (t.takeWhile pyIsDigit).length ≤ t.length :=
          (List.takeWhile_sublist _).length_le
        have h2 := ih (t.drop ((t.takeWhile pyIsDigit).length))
        have h3 : (t.drop ((t.takeWhile pyIsDigit).length)).length =
            t.length - (t.takeWhile pyIsDigit).length := List.length_drop _ _
        simp only [List.length_cons]
        omega
      · rw [if_neg hcond]
        simp

lemma numTailF_pos (f : Nat) (l : List Char) (h : 0 < numTailF f l) :
    ∃ t, l = '.' :: t ∧ 0 < (t.takeWhile pyIsDigit).length ∧ 2 ≤ numTailF f l := by
  match f, l with
  | 0, l => exact absurd h (by simp [numTailF])
  | f + 1, [] => exact absurd h (by simp [numTailF])
  | f + 1, c :: t =>
    by_cases hcond : c = '.' ∧ 0 < (t.takeWhile pyIsDigit).length
    · refine ⟨t, by rw [hcond.1], hcond.2, ?_⟩
      unfold numTailF
      dsimp only
      rw [if_pos hcond]
      omega
    · exact absurd h (by unfold numTailF; dsimp only; rw [if_neg hcond]; simp)

lemma numTailF_not_dot (f : Nat) (c : Char) (t : List Char) (hc : c ≠ '.') :
    numTailF f (c :: t) = 0 := by
  cases f with
  | zero => rfl
  | succ f =>
    unfold numTailF
    dsimp only
    rw [if_neg (fun hcond => hc hcond.1)]

/-- Length of the leading digit run at position `p`. -/
def hdD (text : List Char) (p : Nat) : Nat :=
  ((text.drop p).takeWhile pyIsDigit).length

/-- Length of the `(?:\.\d+)*` part at position `p`. -/
def hdNT (text : List Char) (p : Nat) : Nat :=
  numTailF ((text.drop p).drop (hdD text p)).length ((text.drop p).drop (hdD text p))

/-- Length of the whole numeral at position `p`. -/
def hdN (text : List Char) (p : Nat) : Nat := hdD text p + hdNT text p

/-- Length of the maximal whitespace run after the numeral. -/
def hdK (text : List Char) (p : Nat) : Nat :=
  (((text.drop p).drop (hdN text p)).takeWhile pyIsSpace).length

lemma matchAt_eq (text : List Char) (p : Nat) :
    matchAt text p =
      if hdD text p = 0 then none
      else if hdK text p = 0 then none
      else qSearch text (p + hdN text p) (hdK text p) := rfl

lemma qSearch_some (text : List Char) (p0 : Nat) :
    ∀ (cnt : Nat) (e : Nat), qSearch text p0 cnt = some e →
    ∃ c, 1 ≤ c ∧ c ≤ cnt ∧ e = lineEndFrom text (p0 + c) ∧ 3 ≤ e - (p0 + c) := by
  intro cnt
  induction cnt with
  | zero => intro e h; exact absurd h (by simp [qSearch])
  | succ cnt ih =>
    intro e h
    unfold qSearch at h
    dsimp only at h
    by_cases hco : (!exclMatch (text.drop (p0 + (cnt + 1))) &&
        decide (3 ≤ lineEndFrom text (p0 + (cnt + 1)) - (p0 + (cnt + 1)))) = true
    · rw [if_pos hco] at h
      injection h with h'
      refine ⟨cnt + 1, by omega, le_refl _, h'.symm, ?_⟩
      rw [← h']
      exact of_decide_eq_true (Bool.and_elim_right hco)
    · rw [if_neg hco] at h
      obtain ⟨c, hc1, hc2, he, h3⟩ := ih e h
      exact ⟨c, hc1, Nat.le_succ_of_le hc2, he, h3⟩

lemma scanF_mem (text : List Char) :
    ∀ (f p : Nat) (pe : Nat × Nat), pe ∈ scanF text f p →
      matchAt text pe.1 = some pe.2 := by
  intro f
  induction f with
  | zero => intro p pe h; exact absurd h (by simp [scanF])
  | succ f ih =>
    intro p pe h
    unfold scanF at h
    split_ifs at h with ha hb
    · exact absurd h (List.not_mem_nil pe)
    · rcases hm : matchAt text p with _ | e
      · rw [hm] at h
        exact ih (p + 1) pe h
      · rw [hm] at h
        rcases List.mem_cons.mp h with heq | hmem
        · rw [heq]
          exact hm
        · exact ih (max e (p + 1)) pe hmem
    · exact ih (p + 1) pe h

lemma findMatches_spec (text : List Char) (pe : Nat × Nat)
    (h : pe ∈ findMatches text) : matchAt text pe.1 = some pe.2 :=
  scanF_mem text (text.length + 1) 0 pe h

lemma ws_not_digit (c : Char) (h : pyIsSpace c = true) : pyIsDigit c = false := by
  unfold pyIsSpace at h
  simp only [Bool.or_eq_true, decide_eq_true_eq] at h
  rcases h with ((((hc | hc) | hc) | hc) | hc) | hc <;> rw [hc] <;> decide

lemma numTailF_nil (f : Nat) : numTailF f [] = 0 := by
  cases f <;> rfl

/-- The shape every stripped heading has: a nonempty digit run, followed
by nothing, by a whitespace character, or by a dot and a digit. -/
def HeadShape (h : List Char) : Prop :=
  1 ≤ (h.takeWhile pyIsDigit).length ∧
  (h.drop ((h.takeWhile pyIsDigit).length) = [] ∨
   (∃ c t, h.drop ((h.takeWhile pyIsDigit).length) = c :: t ∧ pyIsSpace c = true) ∨
   (∃ c2 t2, h.drop ((h.takeWhile pyIsDigit).length) = '.' :: c2 :: t2 ∧
     pyIsDigit c2 = true))

lemma headShape_of_decomp (D rest : List Char) (hD : ∀ x ∈ D, pyIsDigit x = true)
    (hDne : D ≠ [])
    (hrest : rest = [] ∨
      (∃ c t, rest = c :: t ∧ pyIsSpace c = true) ∨
      (∃ c2 t2, rest = '.' :: c2 :: t2 ∧ pyIsDigit c2 = true)) :
    HeadShape (D ++ rest) := by
  have htw : (D ++ rest).takeWhile pyIsDigit = D ++ rest.takeWhile pyIsDigit :=
    takeWhile_append_all pyIsDigit D rest hD
  have htw0 : rest.takeWhile pyIsDigit = [] := by
    rcases hrest with h0 | ⟨c, t, hct, hws⟩ | ⟨c2, t2, hct, _⟩
    · rw [h0]; rfl
    · rw [hct, List.takeWhile_cons, if_neg]
      rw [ws_not_digit c hws]
      simp
    · rw [hct, List.takeWhile_cons, if_neg]
      rw [(by decide : pyIsDigit '.' = false)]
      simp
  have hlen : ((D ++ rest).takeWhile pyIsDigit).length = D.length := by
    rw [htw, htw0]
    simp
  constructor
  · rw [hlen]
    have := List.length_pos.mpr hDne
    omega
  · rw [hlen, List.drop_left]
    exact hrest

lemma matchAt_HeadShape (text : List Char) (p e : Nat)
    (hma : matchAt text p = some e) : HeadShape (pyStrip (sliceL text p e)) := by
  rw [matchAt_eq] at hma
  split_ifs at hma with h1 h2
  obtain ⟨c, hc1, hc2, he, h3c⟩ := qSearch_some text (p + hdN text p) (hdK text p) e hma
  have hd1 : 1 ≤ hdD text p := Nat.one_le_iff_ne_zero.mpr h1
  have hk1 : 1 ≤ hdK text p := Nat.one_le_iff_ne_zero.mpr h2
  have hdN_eq : hdN text p = hdD text p + hdNT text p := rfl
  -- abbreviations
  have hsufflen : (text.drop p).length = text.length - p := List.length_drop p text
  have hdle : hdD text p ≤ (text.drop p).length :=
    (List.takeWhile_sublist _).length_le
  have hntle : hdNT text p ≤ (text.drop p).length - hdD text p := by
    have h0 : hdNT text p ≤ ((text.drop p).drop (hdD text p)).length :=
      numTailF_le _ _
    rw [List.length_drop] at h0
    exact h0
  have hnle : hdN text p ≤ (text.drop p).length := by
    unfold hdN
    omega
  have hkle : hdK text p ≤ (text.drop p).length - hdN text p := by
    have h0 : hdK text p ≤ ((text.drop p).drop (hdN text p)).length :=
      (List.takeWhile_sublist _).length_le
    rw [List.length_drop] at h0
    exact h0
  have hplen : p < text.length := by
    by_contra hge
    have : (text.drop p).length = 0 := by
      rw [hsufflen]
      omega
    omega
  have hqlen : p + hdN text p + c ≤ text.length := by
    rw [hsufflen] at hnle hkle
    omega
  have heL : e = (p + hdN text p + c) +
      ((text.drop (p + hdN text p + c)).takeWhile (fun ch => !decide (ch = '\n'))).length := by
    rw [he]; rfl
  have hLle : ((text.drop (p + hdN text p + c)).takeWhile
      (fun ch => !decide (ch = '\n'))).length ≤ text.length - (p + hdN text p + c) := by
    have := (List.takeWhile_sublist (l := text.drop (p + hdN text p + c))
      (p := fun ch => !decide (ch = '\n'))).length_le
    rw [List.length_drop] at this
    exact this
  have hele : e ≤ text.length := by omega
  have hep4 : hdN text p + 4 ≤ e - p := by omega
  have heple : e - p ≤ (text.drop p).length := by omega
  -- the span and its digit prefix
  have hsplit : text.drop p =
      (text.drop p).takeWhile pyIsDigit ++
        (text.drop p).drop (hdD text p) :=
    takeWhile_drop_split pyIsDigit (text.drop p)
  have hdD_eq : ((text.drop p).takeWhile pyIsDigit).length = hdD text p := rfl
  have hDlen_le : ((text.drop p).takeWhile pyIsDigit).length ≤ e - p := by
    rw [hdD_eq]
    omega
  have hspan : sliceL text p e =
      (text.drop p).takeWhile pyIsDigit ++
        ((text.drop p).drop (hdD text p)).take (e - p - hdD text p) := by
    unfold sliceL
    conv_lhs => rw [hsplit]
    rw [List.take_append_eq_append_take, hdD_eq, List.take_of_length_le hDlen_le]
  have hallD : ∀ x ∈ (text.drop p).takeWhile pyIsDigit, pyIsDigit x = true :=
    fun x hx => List.mem_takeWhile_imp hx
  have hallDws : ∀ x ∈ (text.drop p).takeWhile pyIsDigit, pyIsSpace x = false :=
    fun x hx => digit_not_ws x (hallD x hx)
  have hDne : (text.drop p).takeWhile pyIsDigit ≠ [] := by
    intro hnil
    have : hdD text p = 0 := by unfold hdD; rw [hnil]; rfl
    omega
  obtain ⟨c0, D0, hD0⟩ := List.exists_cons_of_ne_nil hDne
  have hc0d : pyIsDigit c0 = true := hallD c0 (by rw [hD0]; exact List.mem_cons_self _ _)
  have hstrip : pyStrip (sliceL text p e) = rstripL (sliceL text p e) := by
    apply pyStrip_eq_rstrip _ c0
      (D0 ++ ((text.drop p).drop (hdD text p)).take (e - p - hdD text p))
    · rw [hspan, hD0]
      rfl
    · exact digit_not_ws c0 hc0d
  -- case split on the numeral tail
  rcases Nat.eq_zero_or_pos (hdNT text p) with hnt0 | hntpos
  · -- no dots: after the digits comes whitespace
    have hn_eq : hdN text p = hdD text p := by
      unfold hdN
      omega
    have hkne : 0 < (((text.drop p).drop (hdD text p)).takeWhile pyIsSpace).length := by
      have : hdK text p = (((text.drop p).drop (hdD text p)).takeWhile pyIsSpace).length := by
        unfold hdK
        rw [hn_eq]
      omega
    obtain ⟨cw, tw, hR, hwscw⟩ :=
      takeWhile_ne_nil_head pyIsSpace ((text.drop p).drop (hdD text p)) hkne
    have hm1 : 1 ≤ e - p - hdD text p := by
      rw [hn_eq] at hep4
      omega
    obtain ⟨m', hm'⟩ : ∃ m', e - p - hdD text p = m' + 1 := ⟨e - p - hdD text p - 1, by omega⟩
    have htake : ((text.drop p).drop (hdD text p)).take (e - p - hdD text p) =
        cw :: tw.take m' := by
      rw [hR, hm']
      rfl
    rw [hstrip, hspan, htake,
      rstrip_append_all _ _ hallDws]
    rcases hrr : rstripL (cw :: tw.take m') with _ | ⟨x, rr'⟩
    · refine headShape_of_decomp _ _ hallD hDne (Or.inl rfl)
    · have hx : x = cw := by
        rcases rstrip_prefix (cw :: tw.take m') with ⟨t3, ht3⟩
        rw [hrr] at ht3
        injection ht3
      refine headShape_of_decomp _ _ hallD hDne (Or.inr (Or.inl ⟨x, rr', rfl, ?_⟩))
      rw [hx]
      exact hwscw
  · -- a dot follows the digits
    obtain ⟨t, hRdot, htd, hnt2⟩ :=
      numTailF_pos _ _ (by exact hntpos)
    obtain ⟨c2, t2, ht, hc2d⟩ := takeWhile_ne_nil_head pyIsDigit t htd
    have hm2 : 2 ≤ e - p - hdD text p := by
      have : hdD text p + hdNT text p + 4 ≤ e - p := by
        unfold hdN at hep4
        omega
      omega
    obtain ⟨m2, hm2'⟩ : ∃ m2, e - p - hdD text p = m2 + 2 := ⟨e - p - hdD text p - 2, by omega⟩
    have htake : ((text.drop p).drop (hdD text p)).take (e - p - hdD text p) =
        '.' :: c2 :: t2.take m2 := by
      rw [hRdot, ht, hm2']
      rfl
    rw [hstrip, hspan, htake, rstrip_append_all _ _ hallDws]
    have hdots : rstripL ('.' :: c2 :: t2.take m2) =
        '.' :: c2 :: rstripL (t2.take m2) := by
      have : ('.' :: c2 :: t2.take m2) = ['.', c2] ++ t2.take m2 := rfl
      rw [this, rstrip_append_all ['.', c2] _ ?_]
      · rfl
      · intro x hx
        rcases List.mem_cons.mp hx with rfl | hx2
        · decide
        · rw [List.mem_singleton.mp hx2]
          exact digit_not_ws c2 hc2d
    rw [hdots]
    exact headShape_of_decomp _ _ hallD hDne
      (Or.inr (Or.inr ⟨c2, rstripL (t2.take m2), rfl, hc2d⟩))

lemma heading_shape (text : List Char) :
    ∀ hd ∈ parse_headings text, HeadShape hd.heading := by
  intro hd hmem
  unfold parse_headings at hmem
  rcases List.mem_map.mp hmem with ⟨pe, hpe, hhd⟩
  rw [← hhd]
  exact matchAt_HeadShape text pe.1 pe.2 (findMatches_spec text pe hpe)

lemma shape_bridge (h : List Char) (hs : HeadShape h) :
    mainMatch h = isSecHeading h := by
  obtain ⟨hd1, hcase⟩ := hs
  have hdlen : (h.takeWhile pyIsDigit).length ≤ h.length :=
    (List.takeWhile_sublist _).length_le
  rcases hcase with hnil | ⟨c, t, heq, hws⟩ | ⟨c2, t2, heq, hdig⟩
  · -- the heading is the bare numeral
    have hm : mainMatch h = false := by
      unfold mainMatch
      dsimp only
      rw [hnil]
      simp
    have hlen : h.length = (h.takeWhile pyIsDigit).length := by
      have h2 : h.length ≤ (h.takeWhile pyIsDigit).length := List.drop_eq_nil_iff.mp hnil
      omega
    have hnt : numTailF (h.drop ((h.takeWhile pyIsDigit).length)).length
        (h.drop ((h.takeWhile pyIsDigit).length)) = 0 := by
      rw [hnil]
      exact numTailF_nil _
    have hnumlen : numeralLen h = (h.takeWhile pyIsDigit).length := by
      unfold numeralLen
      dsimp only
      rw [hnt]
      omega
    have hext : extendsNumeral h = false := by
      unfold extendsNumeral
      rw [hnumlen, ← hlen]
      simp
    rw [hm]
    unfold isSecHeading
    rw [hext]
    simp
  · -- whitespace after the digits: a Section heading
    have hm : mainMatch h = true := by
      unfold mainMatch
      dsimp only
      rw [heq]
      simp [hws, hd1]
    have hnt : numTailF (h.drop ((h.takeWhile pyIsDigit).length)).length
        (h.drop ((h.takeWhile pyIsDigit).length)) = 0 := by
      rw [heq]
      exact numTailF_not_dot _ c t (ws_ne_dot c hws)
    have hnumlen : numeralLen h = (h.takeWhile pyIsDigit).length := by
      unfold numeralLen
      dsimp only
      rw [hnt]
      omega
    have hlt : (h.takeWhile pyIsDigit).length < h.length := by
      have h2 : (h.drop ((h.takeWhile pyIsDigit).length)).length = t.length + 1 := by
        rw [heq]
        rfl
      rw [List.length_drop] at h2
      omega
    have hext : extendsNumeral h = true := by
      unfold extendsNumeral
      rw [hnumlen]
      exact decide_eq_true hlt
    have hlead : leadingNumeral h = h.takeWhile pyIsDigit := by
      unfold leadingNumeral
      rw [hnumlen]
      exact (List.prefix_iff_eq_take.mp (List.takeWhile_prefix _)).symm
    have hnodot : noDotNumeral h = true := by
      unfold noDotNumeral
      have hnotmem : ('.' : Char) ∉ leadingNumeral h := by
        rw [hlead]
        intro hmem
        exact absurd (List.mem_takeWhile_imp hmem) (by decide)
      have : (leadingNumeral h).contains '.' = false := by
        rcases hc : (leadingNumeral h).contains '.' with _ | _
        · rfl
        · exact absurd (List.elem_iff.mp hc) hnotmem
      rw [this]
      rfl
    rw [hm]
    unfold isSecHeading
    rw [hnodot, hext]
    rfl
  · -- a dot after the digits: a dotted SubSection heading
    have hm : mainMatch h = false := by
      unfold mainMatch
      dsimp only
      rw [heq]
      simp
      intro _
      decide
    have hnt1 : 0 < numTailF (h.drop ((h.takeWhile pyIsDigit).length)).length
        (h.drop ((h.takeWhile pyIsDigit).length)) := by
      rw [heq]
      have hcond : ('.' : Char) = '.' ∧ 0 < ((c2 :: t2).takeWhile pyIsDigit).length :=
        ⟨rfl, by rw [List.takeWhile_cons, if_pos hdig]; simp⟩
      show 0 < numTailF (t2.length + 1 + 1) ('.' :: c2 :: t2)
      unfold numTailF
      dsimp only
      rw [if_pos hcond]
      omega
    have hdotmem : ('.' : Char) ∈ leadingNumeral h := by
      unfold leadingNumeral numeralLen
      dsimp only
      rw [List.take_add]
      apply List.mem_append_right
      obtain ⟨nt', hnt'⟩ : ∃ nt', numTailF (h.drop ((h.takeWhile pyIsDigit).length)).length
          (h.drop ((h.takeWhile pyIsDigit).length)) = nt' + 1 :=
        ⟨numTailF (h.drop ((h.takeWhile pyIsDigit).length)).length
          (h.drop ((h.takeWhile pyIsDigit).length)) - 1, by omega⟩
      rw [hnt', heq, List.take_succ_cons]
      exact List.mem_cons_self _ _
    have hnodot : noDotNumeral h = false := by
      unfold noDotNumeral
      have hcontains : (leadingNumeral h).contains '.' = true := List.elem_iff.mpr hdotmem
      rw [hcontains]
      rfl
    rw [hm]
    unfold isSecHeading
    rw [hnodot]
    rfl

/-- Claim C6 amended: the structured body equals the grouping in which a
heading is a Section exactly when its leading numeral contains no dot AND
the heading extends beyond the bare numeral; every other heading is a
SubSection attached to the most recently opened Section, and SubSection
headings before the first Section are discarded.  (A bare-numeral heading
— produced e.g. by a digit followed only by whitespace — has a dotless
numeral but is nevertheless treated as a SubSection, which is what the
counterexample exhibits.) -/
theorem c6_section_assignment (text : List Char) :
    structured_body text = groupSpec (content_map text) (parse_headings text) := by
  unfold structured_body
  exact bodyLoop_none_eq (content_map text) (parse_headings text)
    (fun hd hm => shape_bridge hd.heading (heading_shape text hd hm))

/-! ## Claim C1: header carry-over in the structured table builder

The structured variant of the Table Cell/Row Assembler (spec §4.2, second
paragraph) has no source under `src/`; it is modelled from the spec
below. -/

/-- Modelled from the spec: a TableGrid — the raw row grid of one
detected or inferred table, with its page and detection-source tag. -/
structure TableGrid where
  page : Nat
  source : String
  rows : List (List String)
deriving DecidableEq

/-- Modelled from the spec: a structured cell value — a scalar string, an
ordered list of bullet items, or null for an empty cell. -/
inductive CellVal where
  | scalar (s : String)
  | items (l : List String)
  | nullV
deriving DecidableEq

/-- Modelled from the spec: the bullet-or-newline separators (newline,
`*`, `-`, and U+2022, U+2023, U+25AA, U+25E6). -/
def bulletSeps : List Char :=
  ['\n', '*', '-', Char.ofNat 0x2022, Char.ofNat 0x2023, Char.ofNat 0x25AA,
   Char.ofNat 0x25E6]

/-- Split a character list at every separator occurrence. -/
def splitAnyAux : List Char → List Char → List (List Char)
  | acc, [] => [acc.reverse]
  | acc, c :: t =>
    if bulletSeps.contains c then acc.reverse :: splitAnyAux [] t
    else splitAnyAux (c :: acc) t

/-- Modelled from the spec: a cell's structured value — split on the
bullet pattern; when more than one non-empty (stripped) fragment results,
keep the ordered fragment list; otherwise keep the scalar string, or null
for an empty cell. -/
def toCellVal (s : String) : CellVal :=
  let frags := ((splitAnyAux [] s.toList).map (fun l => pyStripS (String.mk l))).filter
    (fun f => decide (f ≠ ""))
  if 1 < frags.length then .items frags
  else if s = "" then .nullV
  else .scalar s

/-- Modelled from the spec: header labels learned from a header row, with
`Column_N` (1-based) substituted for blank cells. -/
def labelsFrom (row : List String) : List String :=
  (row.enum).map (fun ic => if ic.2 = "" then "Column_" ++ toString (ic.1 + 1) else ic.2)

/-- Modelled from the spec: purely positional `Column_N` labels. -/
def posLabels (n : Nat) : List String :=
  (List.range n).map (fun i => "Column_" ++ toString (i + 1))

/-- Modelled from the spec: the header test — every cell of the first row
is a string shorter than 40 characters. -/
def headerTest (row : List String) : Bool := row.all (fun c => decide (c.length < 40))

/-- Modelled from the spec: one data row as a record, pairing each header
label with the structured value of the corresponding cell. -/
def rowRecord (hdrs : List String) (row : List String) : List (String × CellVal) :=
  (hdrs.zip row).map (fun p => (p.1, toCellVal p.2))

/-- Modelled from the spec: structure one TableGrid given the remembered
header set.  A passing first row becomes the header; a failing first row
reuses the remembered header set when the column counts agree (pure
continuation, no header row consumed); otherwise positional labels are
synthesized and the first row is dropped as an assumed header. -/
def structureOne (last : Option (List String)) (g : TableGrid) :
    List (List (String × CellVal)) × Option (List String) :=
  match g.rows with
  | [] => ([], last)
  | first :: rest =>
    if headerTest first then
      (rest.map (rowRecord (labelsFrom first)), some (labelsFrom first))
    else
      match last with
      | some hs =>
        if hs.length = first.length then ((first :: rest).map (rowRecord hs), some hs)
        else (rest.map (rowRecord (posLabels first.length)), some (posLabels first.length))
      | none => (rest.map (rowRecord (posLabels first.length)), some (posLabels first.length))

/-- Modelled from the spec: structure all grids of one document in order,
threading the remembered header set as explicit accumulator state. -/
def structureAll (last : Option (List String)) : List TableGrid →
    List (List (List (String × CellVal)))
  | [] => []
  | g :: gs => (structureOne last g).1 :: structureAll (structureOne last g).2 gs

/-- Modelled from the spec: the StructuredTables of a document. -/
def structuredTables (gs : List TableGrid) : List (List (List (String × CellVal))) :=
  structureAll none gs

/-- The remembered header set after structuring a prefix of the grids. -/
def carryState (last : Option (List String)) (gs : List TableGrid) :
    Option (List String) :=
  gs.foldl (fun l g => (structureOne l g).2) last

lemma structureAll_get? (gs : List TableGrid) :
    ∀ (last : Option (List String)) (i : Nat),
    (structureAll last gs).get? i =
      ((gs.drop i).head?).map (fun g => (structureOne (carryState last (gs.take i)) g).1) := by
  induction gs with
  | nil => intro last i; simp [structureAll]
  | cons g gs ih =>
    intro last i
    match i with
    | 0 => rfl
    | Nat.succ j =>
      have h1 : (structureAll last (g :: gs)).get? (j + 1) =
          (structureAll (structureOne last g).2 gs).get? j := rfl
      rw [h1, ih (structureOne last g).2 j]
      rfl

lemma structureOne_snd_header (last : Option (List String)) (g : TableGrid)
    (r1 : List String) (rest1 : List (List String))
    (h : g.rows = r1 :: rest1) (hh : headerTest r1 = true) :
    (structureOne last g).2 = some (labelsFrom r1) := by
  unfold structureOne
  rw [h]
  dsimp only
  rw [if_pos hh]

lemma structureOne_cont (hs : List String) (g : TableGrid)
    (r2 : List String) (rest2 : List (List String))
    (h : g.rows = r2 :: rest2) (hh : headerTest r2 = false)
    (hw : hs.length = r2.length) :
    (structureOne (some hs) g).1 = (r2 :: rest2).map (rowRecord hs) := by
  unfold structureOne
  rw [h]
  dsimp only
  rw [if_neg (by rw [hh]; simp), if_pos hw]

lemma labelsFrom_length (row : List String) : (labelsFrom row).length = row.length := by
  unfold labelsFrom
  rw [List.length_map, List.enum_length]

lemma carryState_take_succ (gs : List TableGrid) (i : Nat) (hi : i < gs.length)
    (last : Option (List String)) :
    carryState last (gs.take (i + 1)) =
      (structureOne (carryState last (gs.take i)) gs[i]).2 := by
  unfold carryState
  rw [List.take_succ, List.getElem?_eq_getElem hi, List.foldl_append]
  rfl

/-- Claim C1 (spec-modelled): header carry-over.  For two consecutive
tables where the first has a valid header row of width N and the second's
first row fails the header test but has width N, the second table's
StructuredTable uses the first table's header labels and is a pure
continuation: every row of the grid, including the first, becomes a data
record (no header row consumed). -/
theorem c1_header_carry_over (gs : List TableGrid) (i : Nat)
    (hi : i + 1 < gs.length)
    (r1 : List String) (rest1 : List (List String))
    (r2 : List String) (rest2 : List (List String))
    (h1 : gs[i].rows = r1 :: rest1)
    (h2 : gs[i + 1].rows = r2 :: rest2)
    (hh1 : headerTest r1 = true)
    (hh2 : headerTest r2 = false)
    (hw : r2.length = r1.length) :
    (structuredTables gs).get? (i + 1) =
      some (gs[i + 1].rows.map (rowRecord (labelsFrom r1))) := by
  unfold structuredTables
  rw [structureAll_get? gs none (i + 1), List.head?_drop,
    List.getElem?_eq_getElem hi]
  have hstate : carryState none (gs.take (i + 1)) = some (labelsFrom r1) := by
    rw [carryState_take_succ gs i (by omega) none]
    exact structureOne_snd_header _ gs[i] r1 rest1 h1 hh1
  rw [hstate]
  dsimp only [Option.map]
  rw [structureOne_cont (labelsFrom r1) gs[i + 1] r2 rest2 h2 hh2
      (by rw [labelsFrom_length, ← hw]), ← h2]

/-- The concrete document for the C1 witness: a table with a valid header
row followed by a table whose first row contains a 40-character cell
(failing the header test) and has the same width. -/
def c1grids : List TableGrid :=
  [⟨1, "TEXTRACT_TABLE", [["H1", "H2"], ["a", "b"]]⟩,
   ⟨2, "TEXTRACT_TABLE",
    [["0123456789012345678901234567890123456789", "x"], ["c", "d"]]⟩]

/-- Witness for claim C1 at a concrete input: the second table inherits
the first table's labels and keeps its first row as data. -/
theorem c1_header_carry_over_witness :
    headerTest ["H1", "H2"] = true ∧
    headerTest ["0123456789012345678901234567890123456789", "x"] = false ∧
    (structuredTables c1grids).get? 1 =
      some ([["0123456789012345678901234567890123456789", "x"],
             ["c", "d"]].map (rowRecord (labelsFrom ["H1", "H2"]))) := by
  refine ⟨by decide, by decide, ?_⟩
  exact c1_header_carry_over c1grids 0 (by decide) ["H1", "H2"] [["a", "b"]]
    ["0123456789012345678901234567890123456789", "x"] [["c", "d"]]
    rfl rfl (by decide) (by decide) (by decide)
